import Mathlib

/-!
# Iron Dominion — verification of the simulation engine

Shallow embedding of the hex-grid railway simulation: terrain generation
(`generateMapTerrain`), the tech tree (`canResearch`, bonus aggregation), and
the network/economy engine (`canBuildTrack`, `buildTrack`, `canBuildStation`,
`findTrackPath`, `buyTrain`, `removeTrain`, `updateTrains`, `updateEconomy`,
`advanceTime`).

Modelling conventions:
* JavaScript numbers are modelled by `ℚ` (exact rational arithmetic); money
  amounts, which the program only ever updates by integer deltas
  (`Math.floor` results and integer constants), are modelled by `ℤ`.
* `Math.random()` is ambient unseeded randomness; it is modelled by an
  explicit oracle `rand : ℕ → ℚ` together with a counter for the next unread
  position, threaded through every function that draws randomness.
* A JavaScript `Map` is insertion-ordered with in-place update; it is
  modelled by `JsMap` (an association list: `set` replaces in place, `get`
  takes the first hit).  A JavaScript `Set` is modelled by a duplicate-free
  insertion-ordered list.
* The source keys its maps by the serialized hex string `"q,r"`
  (`hexKey`) and by the track string `"k1->k2"` (`trackKey`).  Both
  serializations are injective, and `parseHexKey` inverts `hexKey`, so the
  embedding uses the coordinate pair itself as the key value; `trackKey`
  returns the canonically ordered pair of endpoints.
-/

namespace IronDominion

/-! ## JS collections -/

/-- JavaScript `Map`: insertion-ordered association list. -/
abbrev JsMap (K V : Type) : Type := List (K × V)

/-- `Map.get`: the value at the first (unique) occurrence of the key. -/
def jsGet {K V : Type} [DecidableEq K] (m : JsMap K V) (k : K) : Option V :=
  match m with
  | [] => none
  | (k', v) :: rest => if k' = k then some v else jsGet rest k

/-- `Map.set`: replace in place if present (keeping the insertion position),
otherwise append. -/
def jsSet {K V : Type} [DecidableEq K] (m : JsMap K V) (k : K) (v : V) : JsMap K V :=
  match m with
  | [] => [(k, v)]
  | (k', v') :: rest => if k' = k then (k, v) :: rest else (k', v') :: jsSet rest k v

/-- `Map.has`. -/
def jsHas {K V : Type} [DecidableEq K] (m : JsMap K V) (k : K) : Bool :=
  (jsGet m k).isSome

/-- `Map.size`. -/
def jsSize {K V : Type} (m : JsMap K V) : ℕ := m.length

/-- `Array.from(map.values())`: values in insertion order. -/
def jsValues {K V : Type} (m : JsMap K V) : List V := m.map (·.2)

/-- JavaScript `Set.add`: append if absent. -/
def setAdd {K : Type} [DecidableEq K] (s : List K) (k : K) : List K :=
  if k ∈ s then s else s ++ [k]

/-! ## Hex coordinate math (`hex.ts`) -/

/-- Axial hex coordinate `{q, r}`. -/
structure HexCoord where
  q : ℤ
  r : ℤ
deriving DecidableEq, Repr

/-- The six axial neighbour offsets (E, NE, NW, W, SW, SE). -/
def HEX_DIRECTIONS : List HexCoord :=
  [⟨1, 0⟩, ⟨1, -1⟩, ⟨0, -1⟩, ⟨-1, 0⟩, ⟨-1, 1⟩, ⟨0, 1⟩]

/-- `hexNeighbors`. -/
def hexNeighbors (h : HexCoord) : List HexCoord :=
  HEX_DIRECTIONS.map (fun d => ⟨h.q + d.q, h.r + d.r⟩)

/-- `hexDistance`: `(|Δq| + |Δq+Δr| + |Δr|) / 2` (the sum is always even, so
integer division is exact). -/
def hexDistance (a b : HexCoord) : ℕ :=
  ((a.q - b.q).natAbs + (a.q + a.r - b.q - b.r).natAbs + (a.r - b.r).natAbs) / 2

/-- The serialized hex key `"q,r"` (used only for the canonical ordering in
`trackKey`; maps are keyed by the coordinate pair itself, see the header). -/
def hexKeyStr (h : HexCoord) : String :=
  toString h.q ++ "," ++ toString h.r

/-! ## Terrain (`terrain.ts`) -/

inductive TerrainType where
  | plains | forest | hills | mountains | river | desert | swamp | coast | water
deriving DecidableEq, Repr

/-- `TERRAIN_DATA[t].trackCostMultiplier`.  The source stores `Infinity` for
`water`; that entry is unreachable in `canBuildTrack` (water is rejected
before the cost computation), so the embedding returns `0` there. -/
def trackCostMultiplier : TerrainType → ℚ
  | .plains => 1
  | .forest => 3/2
  | .hills => 2
  | .mountains => 4
  | .river => 3
  | .desert => 6/5
  | .swamp => 5/2
  | .coast => 1
  | .water => 0

/-! ### `SimpleNoise` — seeded gradient noise

The constructor shuffles `[0..255]` with the linear-congruential stream
`s := (s * 16807) % 2147483647` (JS `%` is truncated remainder) and
duplicates the table to 512 entries. -/

/-- One simultaneous swap `[p[i], p[j]] = [p[j], p[i]]`. -/
def shuffleSwap (p : List ℕ) (i j : ℕ) : List ℕ :=
  (p.set i (p.getD j 0)).set j (p.getD i 0)

/-- The shuffle loop, `i` counting down from 255 to 1. -/
def permGo : ℕ → ℤ → List ℕ → List ℕ
  | 0, _, p => p
  | n + 1, s, p =>
    let i := n + 1
    let s' := Int.tmod (s * 16807) 2147483647
    let j := (Int.tmod s' (i + 1)).toNat
    permGo n s' (shuffleSwap p i j)

/-- The 512-entry permutation table of `new SimpleNoise(seed)`. -/
def buildPerm (seed : ℤ) : List ℕ :=
  let p := permGo 255 seed (List.range 256)
  p ++ p

/-- `fade(t) = t*t*t*(t*(t*6-15)+10)`. -/
def fade (t : ℚ) : ℚ := t * t * t * (t * (t * 6 - 15) + 10)

/-- `lerp(a,b,t) = a + t*(b-a)`. -/
def lerp (a b t : ℚ) : ℚ := a + t * (b - a)

/-- `grad(hash, x, y)`: gradient selected by the low two bits of the hash.
`h & 2 === 0` is `h &&& 2 = 0` for the masked `h := hash &&& 3`. -/
def grad (hash : ℕ) (x y : ℚ) : ℚ :=
  let h := hash &&& 3
  let u := if h < 2 then x else y
  let v := if h < 2 then y else x
  (if h &&& 1 = 0 then u else -u) + (if h &&& 2 = 0 then v else -v)

/-- `noise2D`.  `Math.floor(x) & 255` is the Euclidean remainder mod 256 of
the floor (`& 255` on a two's-complement integer). -/
def noise2D (perm : List ℕ) (x y : ℚ) : ℚ :=
  let X := (Int.emod ⌊x⌋ 256).toNat
  let Y := (Int.emod ⌊y⌋ 256).toNat
  let xf : ℚ := x - ⌊x⌋
  let yf : ℚ := y - ⌊y⌋
  let u := fade xf
  let v := fade yf
  let aa := perm.getD (perm.getD X 0 + Y) 0
  let ab := perm.getD (perm.getD X 0 + Y + 1) 0
  let ba := perm.getD (perm.getD (X + 1) 0 + Y) 0
  let bb := perm.getD (perm.getD (X + 1) 0 + Y + 1) 0
  lerp
    (lerp (grad aa xf yf) (grad ba (xf - 1) yf) u)
    (lerp (grad ab xf (yf - 1)) (grad bb (xf - 1) (yf - 1)) u)
    v

/-- The fractal-sum loop of `fbm` (persistence 1/2, lacunarity 2),
accumulating `(value, maxValue)` over the remaining octaves. -/
def fbmGo (perm : List ℕ) (x y : ℚ) : ℕ → ℚ → ℚ → ℚ × ℚ → ℚ × ℚ
  | 0, _, _, acc => acc
  | n + 1, amplitude, frequency, (value, maxValue) =>
    fbmGo perm x y n (amplitude * (1/2)) (frequency * 2)
      (value + noise2D perm (x * frequency) (y * frequency) * amplitude,
       maxValue + amplitude)

/-- `fbm(x, y, octaves)`. -/
def fbm (perm : List ℕ) (x y : ℚ) (octaves : ℕ) : ℚ :=
  let (value, maxValue) := fbmGo perm x y octaves 1 1 (0, 0)
  value / maxValue

/-! ### `generateMap` — the terrain component

`generateMap` builds the terrain in two passes that touch the `terrain` map:
the seeded elevation/moisture classification and the river random walk.  The
later phases (cities, resources, initial exploration) never write to
`terrain`, so the terrain component of the returned map is exactly
`riversPhase ∘ classifyTerrain` below.  Randomness: see the header
(`rand : ℕ → ℚ` plus the next-index counter). -/

/-- Classification of one tile: the island-masked elevation/moisture
threshold cascade.  The source computes
`distFromCenter = sqrt(dx² + dy²)` and then `1 - distFromCenter²`; the
square root cancels exactly, so the mask is computed as `1 - (dx² + dy²)`
directly (exact for the nonnegative radicand). -/
def classifyTile (permE permM : List ℕ) (width height : ℕ) (q r : ℕ) : TerrainType :=
  let centerQ : ℤ := (width : ℤ) / 2
  let centerR : ℤ := (height : ℤ) / 2
  let elevation := fbm permE ((q : ℚ) * (8/100)) ((r : ℚ) * (8/100)) 5
  let moist := fbm permM ((q : ℚ) * (6/100) + 50) ((r : ℚ) * (6/100) + 50) 4
  let dx : ℚ := ((q : ℚ) - (centerQ : ℚ)) / ((width : ℚ) * (45/100))
  let dy : ℚ := ((r : ℚ) - (centerR : ℚ)) / ((height : ℚ) * (45/100))
  let islandMask : ℚ := 1 - (dx * dx + dy * dy)
  let finalElevation := elevation * (6/10) + islandMask * (4/10)
  if finalElevation < -(15/100) then .water
  else if finalElevation < -(5/100) then .coast
  else if finalElevation > 45/100 then .mountains
  else if finalElevation > 3/10 then .hills
  else if moist > 25/100 then .forest
  else if moist < -(2/10) then .desert
  else if moist > 1/10 ∧ finalElevation < 5/100 then .swamp
  else .plains

/-- The classification double loop (`r` outer, `q` inner), in insertion
order. -/
def classifyTerrain (width height : ℕ) (seed : ℤ) : JsMap HexCoord TerrainType :=
  let permE := buildPerm seed
  let permM := buildPerm (seed + 1000)
  (List.range height).foldl (fun m (r : ℕ) =>
    (List.range width).foldl (fun m (q : ℕ) =>
      jsSet m ⟨(q : ℤ), (r : ℤ)⟩ (classifyTile permE permM width height q r)) m) []

/-- One river random walk (at most 20 steps) from an accepted start,
converting visited tiles to `river`, stopping on water or a dead end.
Returns the updated terrain and the next unread random index. -/
def riverWalk (width height : ℕ) (rand : ℕ → ℚ) :
    ℕ → ℤ → ℤ → JsMap HexCoord TerrainType → ℕ → JsMap HexCoord TerrainType × ℕ
  | 0, _, _, terrain, i => (terrain, i)
  | step + 1, q, r, terrain, i =>
    if jsGet terrain ⟨q, r⟩ = some .water then (terrain, i)
    else
      let terrain := jsSet terrain ⟨q, r⟩ .river
      let neighbors := (hexNeighbors ⟨q, r⟩).filter
        (fun n => 0 ≤ n.q ∧ n.q < (width : ℤ) ∧ 0 ≤ n.r ∧ n.r < (height : ℤ))
      if neighbors = [] then (terrain, i)
      else
        let next := neighbors.getD (⌊rand i * (neighbors.length : ℚ)⌋).toNat ⟨q, r⟩
        riverWalk width height rand step next.q next.r terrain (i + 1)

/-- The river start attempts: draw `q`, `r`; walk only if the tile is
mountains or hills (unaccepted rolls are silently skipped). -/
def riverAttempts (width height : ℕ) (rand : ℕ → ℚ) :
    ℕ → JsMap HexCoord TerrainType → ℕ → JsMap HexCoord TerrainType × ℕ
  | 0, terrain, i => (terrain, i)
  | n + 1, terrain, i =>
    let q : ℤ := ⌊rand i * (width : ℚ)⌋
    let r : ℤ := ⌊rand (i + 1) * (height : ℚ)⌋
    let t := jsGet terrain ⟨q, r⟩
    if t = some .mountains ∨ t = some .hills then
      let (terrain', i') := riverWalk width height rand 20 q r terrain (i + 2)
      riverAttempts width height rand n terrain' i'
    else
      riverAttempts width height rand n terrain (i + 2)

/-- The river phase: `3 + floor(rand * 3)` start attempts. -/
def riversPhase (width height : ℕ) (terrain : JsMap HexCoord TerrainType)
    (rand : ℕ → ℚ) (i : ℕ) : JsMap HexCoord TerrainType × ℕ :=
  let riverStarts := 3 + (⌊rand i * 3⌋).toNat
  riverAttempts width height rand riverStarts terrain (i + 1)

/-- The `terrain` mapping returned by `generateMap(width, height, seed)`,
as a function of the ambient random stream. -/
def generateMapTerrain (width height : ℕ) (seed : ℤ) (rand : ℕ → ℚ) :
    JsMap HexCoord TerrainType :=
  (riversPhase width height (classifyTerrain width height seed) rand 0).1

/-! ## Tech tree (`techTree.ts`)

`icon` and `description` are presentational strings never read by the
embedded logic and are omitted from the `Technology` record. -/

/-- A typed technology effect (tagged union `{type, value}` in the source). -/
inductive TechEffect where
  | unlock_train (value : String)
  | speed_bonus (value : ℚ)
  | capacity_bonus (value : ℚ)
  | maintenance_reduction (value : ℚ)
  | revenue_bonus (value : ℚ)
  | unlock_track (value : String)
deriving DecidableEq, Repr

inductive Era where
  | steam | diesel | electric | maglev
deriving DecidableEq, Repr

structure Technology where
  id : String
  name : String
  era : Era
  cost : ℤ
  prerequisites : List String
  effects : List TechEffect
deriving DecidableEq, Repr

/-- `ResearchState`.  `unlocked` is a JS `Set` (duplicate-free,
insertion-ordered list). -/
structure ResearchState where
  points : ℚ
  pointsPerMonth : ℚ
  unlocked : List String
  currentResearch : Option String
  progress : ℚ
deriving DecidableEq, Repr

def createResearchState : ResearchState :=
  { points := 0
    pointsPerMonth := 0
    unlocked := ["basic_locomotive"]
    currentResearch := none
    progress := 0 }

/-- The static 16-entry catalog `TECH_TREE`, in source order. -/
def TECH_TREE : List Technology :=
  [ { id := "basic_locomotive", name := "Basic Locomotive", era := .steam, cost := 0,
      prerequisites := [],
      effects := [.unlock_train "freight"] },
    { id := "passenger_carriages", name := "Passenger Carriages", era := .steam, cost := 500,
      prerequisites := ["basic_locomotive"],
      effects := [.unlock_train "passenger"] },
    { id := "mail_coach", name := "Mail Coach", era := .steam, cost := 400,
      prerequisites := ["basic_locomotive"],
      effects := [.unlock_train "mail"] },
    { id := "improved_boiler", name := "Improved Boiler", era := .steam, cost := 800,
      prerequisites := ["basic_locomotive"],
      effects := [.speed_bonus 15] },
    { id := "diesel_engine", name := "Diesel Engine", era := .diesel, cost := 1500,
      prerequisites := ["improved_boiler"],
      effects := [.unlock_train "mixed"] },
    { id := "luxury_carriages", name := "Luxury Carriages", era := .diesel, cost := 2000,
      prerequisites := ["diesel_engine", "passenger_carriages"],
      effects := [.unlock_train "luxury"] },
    { id := "reinforced_chassis", name := "Reinforced Chassis", era := .diesel, cost := 1200,
      prerequisites := ["diesel_engine"],
      effects := [.capacity_bonus 25] },
    { id := "efficient_logistics", name := "Efficient Logistics", era := .diesel, cost := 1800,
      prerequisites := ["diesel_engine"],
      effects := [.maintenance_reduction 20] },
    { id := "electric_motors", name := "Electric Motors", era := .electric, cost := 3000,
      prerequisites := ["diesel_engine"],
      effects := [.unlock_train "express", .unlock_track "electrified"] },
    { id := "signal_systems", name := "Signal Systems", era := .electric, cost := 2500,
      prerequisites := ["electric_motors"],
      effects := [.revenue_bonus 20] },
    { id := "commuter_networks", name := "Commuter Networks", era := .electric, cost := 2800,
      prerequisites := ["electric_motors", "passenger_carriages"],
      effects := [.unlock_train "commuter"] },
    { id := "high_speed_rails", name := "High-Speed Rails", era := .electric, cost := 4000,
      prerequisites := ["electric_motors", "reinforced_chassis"],
      effects := [.speed_bonus 30, .unlock_track "highspeed"] },
    { id := "maglev_technology", name := "Maglev Technology", era := .maglev, cost := 6000,
      prerequisites := ["electric_motors", "high_speed_rails"],
      effects := [.unlock_train "bullet"] },
    { id := "hyperloop_prototype", name := "Hyperloop Prototype", era := .maglev, cost := 10000,
      prerequisites := ["maglev_technology"],
      effects := [.unlock_train "hyperloop"] },
    { id := "quantum_logistics", name := "Quantum Logistics", era := .maglev, cost := 8000,
      prerequisites := ["maglev_technology", "signal_systems"],
      effects := [.maintenance_reduction 30, .revenue_bonus 25] },
    { id := "neural_networks", name := "Neural Networks", era := .maglev, cost := 7000,
      prerequisites := ["maglev_technology"],
      effects := [.capacity_bonus 40, .speed_bonus 20] } ]

/-- `getTech`: first catalog entry with the given id. -/
def getTech (id : String) : Option Technology :=
  TECH_TREE.find? (fun t => t.id = id)

/-- The `{ok, reason?}` result record of `canResearch`. -/
structure ResearchCheck where
  ok : Bool
  reason : Option String
deriving DecidableEq, Repr

/-- `canResearch(state, techId)`.  The prerequisite loop reports the first
prerequisite (in the order of the technology's `prerequisites` array) that is
not yet unlocked, naming it by display name when the catalog knows it. -/
def canResearch (state : ResearchState) (techId : String) : ResearchCheck :=
  if techId ∈ state.unlocked then { ok := false, reason := some "Already researched" }
  else
    match getTech techId with
    | none => { ok := false, reason := some "Unknown technology" }
    | some tech =>
      match tech.prerequisites.find? (fun p => ¬ (p ∈ state.unlocked)) with
      | some prereq =>
        { ok := false
          reason := some ("Requires: " ++ (((getTech prereq).map Technology.name).getD prereq)) }
      | none =>
        if state.points < (tech.cost : ℚ) then
          { ok := false
            reason := some ("Need " ++ toString tech.cost ++ " RP (have "
              ++ toString (⌊state.points⌋ : ℤ) ++ ")") }
        else { ok := true, reason := none }

/-- `unlockTech`. -/
def unlockTech (state : ResearchState) (techId : String) : ResearchState × Bool :=
  if (canResearch state techId).ok then
    match getTech techId with
    | some tech =>
      ({ state with points := state.points - (tech.cost : ℚ),
                    unlocked := setAdd state.unlocked techId }, true)
    | none => (state, false)
  else (state, false)

/-- `getUnlockedTrainTypes`: union (with duplicates) of all `unlock_train`
effect values across the unlocked set, in iteration order. -/
def getUnlockedTrainTypes (state : ResearchState) : List String :=
  state.unlocked.foldl (fun acc techId =>
    match getTech techId with
    | none => acc
    | some tech => acc ++ tech.effects.foldl (fun ts e =>
        match e with
        | .unlock_train v => ts ++ [v]
        | _ => ts) []) []

/-- Sum of the numeric values of every effect of one kind over the unlocked
set (the common body of the four bonus aggregation functions). -/
def sumEffects (state : ResearchState) (f : TechEffect → Option ℚ) : ℚ :=
  state.unlocked.foldl (fun acc techId =>
    match getTech techId with
    | none => acc
    | some tech => tech.effects.foldl (fun b e => b + ((f e).getD 0)) acc) 0

def getSpeedBonus (state : ResearchState) : ℚ :=
  sumEffects state (fun e => match e with | .speed_bonus v => some v | _ => none)

def getCapacityBonus (state : ResearchState) : ℚ :=
  sumEffects state (fun e => match e with | .capacity_bonus v => some v | _ => none)

/-- `getMaintenanceReduction`: capped at an aggregate of 75%. -/
def getMaintenanceReduction (state : ResearchState) : ℚ :=
  min (sumEffects state (fun e => match e with | .maintenance_reduction v => some v | _ => none)) 75

def getRevenueBonus (state : ResearchState) : ℚ :=
  sumEffects state (fun e => match e with | .revenue_bonus v => some v | _ => none)

/-! ## Game state & economy (`gameState.ts`) -/

/-- A track segment between two adjacent hexes. -/
structure TrackSegment where
  «from» : HexCoord
  «to» : HexCoord
  built : Bool
  type : String
deriving DecidableEq, Repr

inductive StationType where
  | halt | station | junction | terminal
deriving DecidableEq, Repr

structure Station where
  hex : HexCoord
  name : String
  type : StationType
  platforms : ℕ
  cityIndex : ℤ
deriving DecidableEq, Repr

inductive TrainType where
  | freight | passenger | mixed | luxury | mail | express | commuter | bullet | hyperloop
deriving DecidableEq, Repr

/-- A train.  `cargo` is present in the source but never read or written by
the movement logic; it is omitted. -/
structure Train where
  id : ℕ
  name : String
  type : TrainType
  route : List HexCoord
  currentSegment : ℕ
  progress : ℚ
  speed : ℚ
  capacity : ℤ
  revenue : ℤ
  maintenanceCost : ℤ
  color : ℕ
deriving DecidableEq, Repr

inductive NotifType where
  | success | warning | danger | info
deriving DecidableEq, Repr

/-- A notification entry.  The source also stores a process-global
monotone `id` and a wall-clock `time`; neither is readable from the engine
state, so both are omitted. -/
structure GameNotification where
  icon : String
  title : String
  text : String
  type : NotifType
deriving DecidableEq, Repr

/-- City data as consumed by the engine (`demand`/`supply` are generated
once and never read by the engine operations modelled here). -/
structure CityData where
  hex : HexCoord
  name : String
  population : ℤ
  hasStation : Bool
  growth : ℚ
deriving DecidableEq, Repr

structure GameMap where
  width : ℕ
  height : ℕ
  terrain : JsMap HexCoord TerrainType
  cities : List CityData
  explored : List HexCoord
  resources : JsMap HexCoord String
deriving DecidableEq, Repr

/-- Game speed level 0–3. -/
abbrev GameSpeed := Fin 4

structure GameState where
  map : GameMap
  tracks : JsMap (HexCoord × HexCoord) TrackSegment
  stations : JsMap HexCoord Station
  trains : List Train
  funds : ℤ
  monthlyIncome : ℤ
  monthlyExpenses : ℤ
  lastMonthIncome : ℤ
  lastMonthExpenses : ℤ
  totalRevenue : ℤ
  month : ℕ
  year : ℤ
  era : Era
  speed : GameSpeed
  nextTrainId : ℕ
  research : ResearchState
  notifications : List GameNotification
deriving DecidableEq, Repr

/-- The `COSTS` table (the entries the embedded operations read). -/
def COSTS_trackPerHex : ℤ := 500
def COSTS_stationHalt : ℤ := 1000
def COSTS_stationBasic : ℤ := 3000

/-- `COSTS.trainX`: purchase cost by train type. -/
def trainCost : TrainType → ℤ
  | .freight => 5000
  | .passenger => 8000
  | .mixed => 6000
  | .luxury => 12000
  | .mail => 4000
  | .express => 15000
  | .commuter => 10000
  | .bullet => 25000
  | .hyperloop => 50000

/-- `TRAIN_CONFIGS`: `(speed, capacity, maintenance, color)`. -/
def trainConfig : TrainType → ℚ × ℤ × ℤ × ℕ
  | .freight => (15/100, 100, 50, 0x8B6914)
  | .passenger => (25/100, 60, 80, 0x4A6FA5)
  | .mail => (30/100, 40, 40, 0xB44A3E)
  | .mixed => (20/100, 70, 65, 0x7A7D85)
  | .luxury => (20/100, 30, 120, 0xD4A843)
  | .express => (40/100, 80, 150, 0x2E86C1)
  | .commuter => (35/100, 120, 100, 0x27AE60)
  | .bullet => (55/100, 90, 200, 0xE74C3C)
  | .hyperloop => (80/100, 50, 350, 0x9B59B6)

/-- `TRAIN_MAINTENANCE_BY_ERA`. -/
def trainMaintenanceByEra (t : TrainType) (e : Era) : ℤ :=
  match t, e with
  | .freight, .steam => 50 | .freight, .diesel => 75
  | .freight, .electric => 110 | .freight, .maglev => 165
  | .passenger, .steam => 80 | .passenger, .diesel => 120
  | .passenger, .electric => 180 | .passenger, .maglev => 270
  | .mail, .steam => 40 | .mail, .diesel => 60
  | .mail, .electric => 90 | .mail, .maglev => 135
  | .mixed, .steam => 65 | .mixed, .diesel => 90
  | .mixed, .electric => 130 | .mixed, .maglev => 195
  | .luxury, .steam => 120 | .luxury, .diesel => 180
  | .luxury, .electric => 270 | .luxury, .maglev => 405
  | .express, .steam => 150 | .express, .diesel => 220
  | .express, .electric => 330 | .express, .maglev => 495
  | .commuter, .steam => 100 | .commuter, .diesel => 150
  | .commuter, .electric => 220 | .commuter, .maglev => 330
  | .bullet, .steam => 200 | .bullet, .diesel => 300
  | .bullet, .electric => 450 | .bullet, .maglev => 675
  | .hyperloop, .steam => 350 | .hyperloop, .diesel => 520
  | .hyperloop, .electric => 780 | .hyperloop, .maglev => 1170

/-- `TRACK_MAINTENANCE_BY_ERA`. -/
def trackMaintenanceByEra : Era → ℤ
  | .steam => 5
  | .diesel => 10
  | .electric => 50
  | .maglev => 250

/-- `addNotification`: push and evict from the front down to the 5 most
recent. -/
def addNotification (state : GameState) (icon title text : String)
    (ntype : NotifType) : GameState :=
  let l := state.notifications ++ [⟨icon, title, text, ntype⟩]
  { state with notifications := if l.length ≤ 5 then l else l.drop (l.length - 5) }

/-- `revealAround`: mark explored every hex within `radius` of `center`
(the source's `dq`/`dr` square scan filtered by `hexDistance`). -/
def revealAround (state : GameState) (center : HexCoord) (radius : ℕ) : GameState :=
  let offsets : List ℤ := (List.range (2 * radius + 1)).map (fun i => (i : ℤ) - (radius : ℤ))
  let explored := offsets.foldl (fun ex dr =>
    offsets.foldl (fun ex dq =>
      let h : HexCoord := ⟨center.q + dq, center.r + dr⟩
      if hexDistance center h ≤ radius then setAdd ex h else ex) ex) state.map.explored
  { state with map := { state.map with explored := explored } }

/-- `trackKey(from, to)`: the canonically ordered endpoint pair.  The source
orders the two serialized `"q,r"` keys by string comparison; the embedding
orders the coordinate pairs lexicographically — both are canonical
orientations of the same unordered pair, and only key identity (a function
of the unordered pair) is ever observable. -/
def trackKey (a b : HexCoord) : HexCoord × HexCoord :=
  if a.q < b.q ∨ (a.q = b.q ∧ a.r ≤ b.r) then (a, b) else (b, a)

/-- The `{ok, cost, reason?}` result record of the build checks. -/
structure BuildCheck where
  ok : Bool
  cost : ℤ
  reason : Option String
deriving DecidableEq, Repr

/-- `canBuildTrack(state, from, to)`. -/
def canBuildTrack (state : GameState) (a b : HexCoord) : BuildCheck :=
  if hexDistance a b ≠ 1 then { ok := false, cost := 0, reason := some "Must be adjacent hexes" }
  else
    match jsGet state.map.terrain b with
    | none => { ok := false, cost := 0, reason := some "Out of bounds" }
    | some toTerrain =>
      if toTerrain = .water then
        { ok := false, cost := 0, reason := some "Cannot build on water" }
      else if jsHas state.tracks (trackKey a b) then
        { ok := false, cost := 0, reason := some "Track already exists" }
      else
        let cost := ⌊(COSTS_trackPerHex : ℚ) * trackCostMultiplier toTerrain⌋
        if state.funds < cost then { ok := false, cost := cost, reason := some "Insufficient funds" }
        else { ok := true, cost := cost, reason := none }

/-- `buildTrack(state, from, to)`: re-validate, insert a built `standard`
segment, deduct the cost, reveal radius 2 around the destination. -/
def buildTrack (state : GameState) (a b : HexCoord) : GameState × Bool :=
  let check := canBuildTrack state a b
  if ¬ check.ok then (state, false)
  else
    let state := { state with
      tracks := jsSet state.tracks (trackKey a b) ⟨a, b, true, "standard"⟩,
      funds := state.funds - check.cost }
    (revealAround state b 2, true)

/-- `canBuildStation(state, hex)`. -/
def canBuildStation (state : GameState) (hex : HexCoord) : BuildCheck :=
  if jsHas state.stations hex then { ok := false, cost := 0, reason := some "Station already here" }
  else
    match jsGet state.map.terrain hex with
    | none => { ok := false, cost := 0, reason := some "Cannot build station here" }
    | some terrain =>
      if terrain = .water ∨ terrain = .mountains then
        { ok := false, cost := 0, reason := some "Cannot build station here" }
      else
        let hasTrack := (jsValues state.tracks).any
          (fun t => t.«from» = hex ∨ t.«to» = hex)
        let cityIndex := state.map.cities.findIdx? (fun c => c.hex = hex)
        let cost := if cityIndex.isSome then COSTS_stationBasic else COSTS_stationHalt
        if state.funds < cost then
          { ok := false, cost := cost, reason := some "Insufficient funds" }
        else if jsSize state.stations > 0 ∧ ¬ hasTrack then
          { ok := false, cost := cost, reason := some "Must connect to track network" }
        else { ok := true, cost := cost, reason := none }

/-! ### `findTrackPath` — BFS over the track network

The source loops `while (queue.length > 0)`; the embedding supplies the
fuel `adj.length + 1` (an upper bound on the number of dequeues: every
enqueued key is a fresh `cameFrom` key, and `cameFrom` keys are adjacency
keys).  The parent map `cameFrom` stores `none` for the start sentinel
(`''` in the source). -/

/-- `if (!adj.has(k)) adj.set(k, new Set())`. -/
def ensureKey (adj : JsMap HexCoord (List HexCoord)) (k : HexCoord) :
    JsMap HexCoord (List HexCoord) :=
  if jsHas adj k then adj else jsSet adj k []

/-- Add one undirected track edge to the adjacency map. -/
def addAdj (adj : JsMap HexCoord (List HexCoord)) (a b : HexCoord) :
    JsMap HexCoord (List HexCoord) :=
  let adj := ensureKey adj a
  let adj := ensureKey adj b
  let adj := jsSet adj a (setAdd ((jsGet adj a).getD []) b)
  jsSet adj b (setAdd ((jsGet adj b).getD []) a)

/-- The undirected adjacency map built from all track segments. -/
def buildAdj (tracks : JsMap (HexCoord × HexCoord) TrackSegment) :
    JsMap HexCoord (List HexCoord) :=
  tracks.foldl (fun adj kv => addAdj adj kv.2.«from» kv.2.«to») []

/-- The parent-chain walk of the path reconstruction (built goal-first,
reversed by the caller). -/
def reconstructRev (cameFrom : JsMap HexCoord (Option HexCoord)) :
    ℕ → HexCoord → List HexCoord
  | 0, _ => []
  | fuel + 1, node =>
    node :: (match jsGet cameFrom node with
      | some (some parent) => reconstructRev cameFrom fuel parent
      | _ => [])

/-- Enqueue the unvisited neighbours of `current`, recording parents. -/
def bfsExpand (current : HexCoord) :
    List HexCoord → List HexCoord → JsMap HexCoord (Option HexCoord) →
    List HexCoord × JsMap HexCoord (Option HexCoord)
  | [], queue, cameFrom => (queue, cameFrom)
  | n :: ns, queue, cameFrom =>
    if jsHas cameFrom n then bfsExpand current ns queue cameFrom
    else bfsExpand current ns (queue ++ [n]) (jsSet cameFrom n (some current))

/-- The BFS work loop: dequeue, stop at the goal, otherwise expand. -/
def bfsLoop (adj : JsMap HexCoord (List HexCoord)) (goal : HexCoord) :
    ℕ → List HexCoord → JsMap HexCoord (Option HexCoord) → Option (List HexCoord)
  | 0, _, _ => none
  | _ + 1, [], _ => none
  | fuel + 1, current :: rest, cameFrom =>
    if current = goal then
      some (reconstructRev cameFrom cameFrom.length goal).reverse
    else
      let (queue', cameFrom') := bfsExpand current ((jsGet adj current).getD []) rest cameFrom
      bfsLoop adj goal fuel queue' cameFrom'

/-- `findTrackPath(state, from, to)`. -/
def findTrackPath (state : GameState) (a b : HexCoord) : Option (List HexCoord) :=
  if a = b then some [a]
  else
    let adj := buildAdj state.tracks
    if ¬ jsHas adj a then none
    else bfsLoop adj b (adj.length + 1) [a] (jsSet [] a none)

/-! ### Trains -/

/-- The lowercase type string of a train type. -/
def trainTypeName : TrainType → String
  | .freight => "freight"
  | .passenger => "passenger"
  | .mixed => "mixed"
  | .luxury => "luxury"
  | .mail => "mail"
  | .express => "express"
  | .commuter => "commuter"
  | .bullet => "bullet"
  | .hyperloop => "hyperloop"

/-- Concatenate the pairwise shortest paths between consecutive route
stations; the first leg is pushed whole, later legs drop the shared
endpoint (`segment.slice(1)`); any unreachable leg fails the whole
resolution. -/
def resolveRouteGo (state : GameState) :
    Bool → HexCoord → List HexCoord → Option (List HexCoord)
  | _, _, [] => some []
  | isFirst, cur, nxt :: rest =>
    match findTrackPath state cur nxt with
    | none => none
    | some seg =>
      match resolveRouteGo state false nxt rest with
      | none => none
      | some tail => some ((if isFirst then seg else seg.drop 1) ++ tail)

/-- The `fullRoute` resolution loop of `buyTrain`. -/
def resolveRoute (state : GameState) : List HexCoord → Option (List HexCoord)
  | [] => some []
  | s0 :: rest => resolveRouteGo state true s0 rest

/-- `buyTrain(state, type, routeStations)`: returns the purchased train (or
`none` on failure) and the updated state. -/
def buyTrain (state : GameState) (ty : TrainType) (routeStations : List HexCoord) :
    Option Train × GameState :=
  let cost := trainCost ty
  if state.funds < cost then (none, state)
  else if routeStations.length < 2 then (none, state)
  else if ¬ trainTypeName ty ∈ getUnlockedTrainTypes state.research then
    (none, addNotification state "🔒" "Tech Required"
      ("Research the required technology to unlock " ++ trainTypeName ty ++ " trains!") .danger)
  else
    match resolveRoute state routeStations with
    | none => (none, addNotification state "⚠️" "No Track Path"
        "No track connection between stations. Build tracks first!" .danger)
    | some fullRoute =>
      let config := trainConfig ty
      let speedBonus := 1 + getSpeedBonus state.research / 100
      let capBonus := 1 + getCapacityBonus state.research / 100
      let train : Train :=
        { id := state.nextTrainId
          name := (trainTypeName ty).capitalize ++ " " ++ toString state.nextTrainId
          type := ty
          route := fullRoute
          currentSegment := 0
          progress := 0
          speed := config.1 * speedBonus
          capacity := ⌊(config.2.1 : ℚ) * capBonus⌋
          revenue := 0
          maintenanceCost := config.2.2.1
          color := config.2.2.2 }
      let state := { state with
        trains := state.trains ++ [train],
        funds := state.funds - cost,
        nextTrainId := state.nextTrainId + 1 }
      (some train, addNotification state "🚂" "Train Purchased"
        (train.name ++ " is ready to roll!") .success)

/-- Display-only money rendering.  The source abbreviates thousands and
millions and inserts locale separators; the string is never read back by
the engine, so the embedding renders the plain integer. -/
def formatMoney (amount : ℤ) : String := "$" ++ toString amount

/-- The legacy refund cost table of `removeTrain` (`costMap[type] ?? 5000`):
only the five original types are covered. -/
def removeCostMap : TrainType → Option ℤ
  | .freight => some 5000
  | .passenger => some 8000
  | .mixed => some 6000
  | .luxury => some 12000
  | .mail => some 4000
  | _ => none

/-- The 25% refund of `removeTrain`: `floor((costMap[type] ?? 5000) * 0.25)`. -/
def refundAmount (t : TrainType) : ℤ :=
  ⌊(((removeCostMap t).getD 5000 : ℚ)) * (25/100)⌋

/-- `removeTrain(state, trainId)`. -/
def removeTrain (state : GameState) (trainId : ℕ) : GameState × Bool :=
  match state.trains.findIdx? (fun t => t.id = trainId) with
  | none => (state, false)
  | some idx =>
    match state.trains[idx]? with
    | none => (state, false)
    | some train =>
      let refund := refundAmount train.type
      let state := { state with
        trains := state.trains.eraseIdx idx,
        funds := state.funds + refund }
      (addNotification state "🗑️" "Train Retired"
        (train.name ++ " retired. Refund: " ++ formatMoney refund) .warning, true)

/-- The per-leg revenue type multiplier (the inline conditional chain in
`updateTrains`). -/
def legMultiplier (t : TrainType) : ℚ :=
  if t = .hyperloop then 5
  else if t = .bullet then 4
  else if t = .luxury then 3
  else if t = .express then 5/2
  else if t = .passenger then 2
  else if t = .commuter then 3/2
  else 1

/-- The leg-completion revenue
`floor(routeLength * 100 * typeMultiplier * revBonus)` for a route of the
given length. -/
def legRevenue (research : ResearchState) (ty : TrainType) (routeLength : ℕ) : ℤ :=
  ⌊(routeLength : ℚ) * 100 * legMultiplier ty * (1 + getRevenueBonus research / 100)⌋

/-- The outcome of one `updateTrains` iteration on one train: the updated
train, the leg-completion and delivery revenue credits (both also added to
the month's income and the running total by the caller), and the next
unread random index. -/
structure StepResult where
  train : Train
  legRev : ℤ
  deliveryRev : ℤ
  next : ℕ
deriving DecidableEq, Repr

/-- The delivery draw: if the hex reached has a station belonging to a
city, credit `floor(rand * 200) + 50` and consume one random value. -/
def deliveryDraw (stations : JsMap HexCoord Station) (rand : ℕ → ℚ)
    (hex : HexCoord) (i : ℕ) : ℤ × ℕ :=
  match jsGet stations hex with
  | some station =>
    if 0 ≤ station.cityIndex then ((⌊rand i * 200⌋ + 50 : ℤ), i + 1) else ((0 : ℤ), i)
  | none => ((0 : ℤ), i)

/-- The segment-crossing tail of one train step: reset progress, install the
(possibly reversed) route and segment index, credit the leg revenue and the
delivery draw at the hex reached. -/
def stepCross (stations : JsMap HexCoord Station) (rand : ℕ → ℚ) (t : Train)
    (route : List HexCoord) (cs : ℕ) (legRev : ℤ) (i : ℕ) : StepResult :=
  let currentHex := route.getD cs ⟨0, 0⟩
  let d := deliveryDraw stations rand currentHex i
  let train := { t with
    progress := (0 : ℚ),
    currentSegment := cs,
    route := route,
    revenue := t.revenue + legRev + d.1 }
  ⟨train, legRev, d.1, d.2⟩

/-- One train's step of `updateTrains` (`g` is `speedMultiplier * delta`).
The route index `route[currentSegment]` read for the delivery check is
always in range when the caller's invariants hold; the embedding totalizes
it with `getD`. -/
def stepTrain (research : ResearchState) (stations : JsMap HexCoord Station)
    (g : ℚ) (rand : ℕ → ℚ) (t : Train) (i : ℕ) : StepResult :=
  if t.route.length < 2 then ⟨t, 0, 0, i⟩
  else
    let p := t.progress + t.speed * g
    if 1 ≤ p then
      if t.route.length - 1 ≤ t.currentSegment + 1 then
        stepCross stations rand t t.route.reverse 0
          (legRevenue research t.type t.route.reverse.length) i
      else
        stepCross stations rand t t.route (t.currentSegment + 1) 0 i
    else ⟨{ t with progress := p }, 0, 0, i⟩

/-- The train loop of `updateTrains`, threading the random counter and
accumulating the income credited to `monthlyIncome`/`totalRevenue`. -/
def updateTrainsGo (research : ResearchState) (stations : JsMap HexCoord Station)
    (g : ℚ) (rand : ℕ → ℚ) : List Train → ℕ → List Train × ℤ × ℕ
  | [], i => ([], 0, i)
  | t :: ts, i =>
    let r := stepTrain research stations g rand t i
    let (ts', inc, i') := updateTrainsGo research stations g rand ts r.next
    (r.train :: ts', r.legRev + r.deliveryRev + inc, i')

/-- `speedMultipliers = [0, 1, 3, 8]`. -/
def speedMultipliers : List ℚ := [0, 1, 3, 8]

/-- `updateTrains(state, delta)`; returns the state and the next unread
random index. -/
def updateTrains (state : GameState) (delta : ℚ) (rand : ℕ → ℚ) (i : ℕ) :
    GameState × ℕ :=
  let gameSpeed := speedMultipliers.getD state.speed.val 0 * delta
  let (trains, inc, i') :=
    updateTrainsGo state.research state.stations gameSpeed rand state.trains i
  let state := { state with
    trains := trains,
    monthlyIncome := state.monthlyIncome + inc,
    totalRevenue := state.totalRevenue + inc }
  (state, i')

/-! ### Monthly settlement and time -/

/-- The per-station flat maintenance fee. -/
def stationFee (s : Station) : ℤ :=
  match s.type with
  | .terminal => 200
  | .station => 100
  | _ => 30

/-- This month's maintenance total of `updateEconomy`: track + station +
train maintenance, discounted once by the capped maintenance reduction.
The era/type train maintenance table is total, so the source's
`?? train.maintenanceCost` fallback never fires. -/
def totalMaintenance (state : GameState) : ℤ :=
  let maintReduction : ℚ := 1 - getMaintenanceReduction state.research / 100
  let base : ℤ := (jsSize state.tracks : ℤ) * trackMaintenanceByEra state.era
    + ((jsValues state.stations).map stationFee).sum
    + (state.trains.map (fun t => trainMaintenanceByEra t.type state.era)).sum
  ⌊(base : ℚ) * maintReduction⌋

/-- `updateEconomy(state)`: add maintenance to expenses, generate research
points, settle funds in one step, snapshot and reset the accumulators, grow
the cities that have stations. -/
def updateEconomy (state : GameState) : GameState :=
  let monthlyExpenses := state.monthlyExpenses + totalMaintenance state
  let rpFromStations : ℤ := (jsSize state.stations : ℤ) * 10
  let rpFromIncome : ℤ := ⌊(state.monthlyIncome : ℚ) * (2/100)⌋
  let rpGenerated := rpFromStations + rpFromIncome
  let research := { state.research with
    points := state.research.points + (rpGenerated : ℚ),
    pointsPerMonth := (rpGenerated : ℚ) }
  let net := state.monthlyIncome - monthlyExpenses
  let cities := state.map.cities.map (fun c =>
    if c.hasStation then { c with population := ⌊(c.population : ℚ) * (1 + c.growth)⌋ } else c)
  { state with
    monthlyIncome := 0,
    monthlyExpenses := 0,
    lastMonthIncome := state.monthlyIncome,
    lastMonthExpenses := monthlyExpenses,
    funds := state.funds + net,
    research := research,
    map := { state.map with cities := cities } }

/-- The calendar body of `advanceTime`: increment the month; on wraparound
increment the year and run the `else if` era-threshold chain. -/
def advanceCalendar (state : GameState) : GameState :=
  let state := { state with month := state.month + 1 }
  if state.month ≥ 12 then
    let state := { state with month := 0, year := state.year + 1 }
    if state.year ≥ 1900 ∧ state.era = .steam then
      addNotification { state with era := .diesel }
        "🚃" "New Era!" "The Diesel Era has begun!" .warning
    else if state.year ≥ 1950 ∧ state.era = .diesel then
      addNotification { state with era := .electric }
        "⚡" "New Era!" "The Electric Era has begun!" .warning
    else if state.year ≥ 2000 ∧ state.era = .electric then
      addNotification { state with era := .maglev }
        "🚄" "New Era!" "The Maglev Era has begun!" .warning
    else state
  else state

/-- `advanceTime(state)`: the calendar body above, then always the monthly
settlement. -/
def advanceTime (state : GameState) : GameState :=
  updateEconomy (advanceCalendar state)

/-- `createGameState(map)`. -/
def createGameState (map : GameMap) : GameState :=
  { map := map
    tracks := []
    stations := []
    trains := []
    funds := 50000
    monthlyIncome := 0
    monthlyExpenses := 0
    lastMonthIncome := 0
    lastMonthExpenses := 0
    totalRevenue := 0
    month := 0
    year := 1840
    era := .steam
    speed := 1
    nextTrainId := 1
    research := createResearchState
    notifications := [] }

/-! ## Specification-side notions

Definitions below this point are not translations of source functions; they
are the vocabulary the theorems are stated in (graph paths, invariants,
iterated stepping, and the spec's own "first missing prerequisite by
catalog order" reading). -/

/-- The successor era (maglev is final). -/
def nextEra : Era → Era
  | .steam => .diesel
  | .diesel => .electric
  | .electric => .maglev
  | .maglev => .maglev

/-- Modelled from the spec: the display name of the first prerequisite of
`techId` in **catalog order** that is not yet unlocked (the spec's reading
of which prerequisite `canResearch` reports). -/
def catalogFirstMissingName (state : ResearchState) (techId : String) : Option String :=
  match getTech techId with
  | none => none
  | some tech =>
    (TECH_TREE.find? (fun t2 => t2.id ∈ tech.prerequisites ∧ ¬ t2.id ∈ state.unlocked)).map
      Technology.name

/-- A built track segment joining `a` and `b` (in either orientation). -/
def IsSegment (tracks : JsMap (HexCoord × HexCoord) TrackSegment) (a b : HexCoord) : Prop :=
  ∃ kv ∈ tracks, kv.2.built = true ∧
    ((kv.2.«from» = a ∧ kv.2.«to» = b) ∨ (kv.2.«from» = b ∧ kv.2.«to» = a))

/-- A path along built track segments: starts at `a`, ends at `b`, every
consecutive pair is a stored segment. -/
def IsTrackPath (tracks : JsMap (HexCoord × HexCoord) TrackSegment)
    (p : List HexCoord) (a b : HexCoord) : Prop :=
  p.head? = some a ∧ p.getLast? = some b ∧ List.Chain' (IsSegment tracks) p

/-- `ReachN E n a b`: `b` is reachable from `a` in exactly `n` steps of the
edge relation `E` (extended at the far end). -/
inductive ReachN (E : HexCoord → HexCoord → Prop) : ℕ → HexCoord → HexCoord → Prop
  | refl (x : HexCoord) : ReachN E 0 x x
  | snoc {n : ℕ} {x y z : HexCoord} : ReachN E n x y → E y z → ReachN E (n + 1) x z

/-- The movement invariant of a train with a usable route: fractional
progress in `[0, 1)` and the segment index at most `route.length - 2`. -/
def TrainInv (t : Train) : Prop :=
  0 ≤ t.progress ∧ t.progress < 1 ∧ t.currentSegment ≤ t.route.length - 2

/-- Iterate `stepTrain` `k` times on one train, counting the steps that
credited leg revenue and collecting the nonzero delivery credits. -/
def runTrainAcc (research : ResearchState) (stations : JsMap HexCoord Station)
    (g : ℚ) (rand : ℕ → ℚ) : ℕ → Train → ℕ → Train × ℕ × ℕ × List ℤ
  | 0, t, i => (t, i, 0, [])
  | k + 1, t, i =>
    let r := stepTrain research stations g rand t i
    let (t', i', legs, dlvs) := runTrainAcc research stations g rand k r.train r.next
    (t', i', legs + (if r.legRev = 0 then 0 else 1),
      if r.deliveryRev = 0 then dlvs else r.deliveryRev :: dlvs)

/-- The BFS edge relation: `b` is in the adjacency list of `a`. -/
def adjE (adj : JsMap HexCoord (List HexCoord)) (a b : HexCoord) : Prop :=
  b ∈ (jsGet adj a).getD []

/-- The invariant of the BFS work loop: `cf` is the visited/parent map
(`none` marks the start sentinel), `D` a ghost depth assignment, `d` the
depth of the queue front.  The queue splits into a depth-`d` prefix and a
depth-`d+1` suffix; recorded depths are lower bounds on every path length
from the start; everything within distance `d` is already visited; and the
depths are bounded by the number of visited keys (which makes the
reconstruction fuel sufficient). -/
structure BfsInv (adj : JsMap HexCoord (List HexCoord)) (start : HexCoord)
    (queue : List HexCoord) (cf : JsMap HexCoord (Option HexCoord))
    (D : HexCoord → ℕ) (d : ℕ) : Prop where
  start_mem : jsGet cf start = some none
  root_unique : ∀ x, jsGet cf x = some none → x = start
  dstart : D start = 0
  parent : ∀ x p, jsGet cf x = some (some p) →
    jsHas cf p = true ∧ adjE adj p x ∧ D x = D p + 1
  split : ∃ A B, queue = A ++ B ∧ (∀ x ∈ A, D x = d) ∧ (∀ x ∈ B, D x = d + 1) ∧
    (A = [] → B = [])
  queue_mem : ∀ x ∈ queue, jsHas cf x = true
  nodupq : queue.Nodup
  expand_closed : ∀ x, jsHas cf x = true → x ∉ queue → ∀ y, adjE adj x y → jsHas cf y = true
  lower : ∀ x, jsHas cf x = true → ∀ n, ReachN (adjE adj) n start x → D x ≤ n
  unreached : ∀ z, jsHas cf z = false → ∀ n, n ≤ d → ¬ ReachN (adjE adj) n start z
  dbound : ∀ x, jsHas cf x = true → D x + 1 ≤ cf.length

/-! ## Concrete fixtures for witnesses and counterexamples -/

/-- The all-zero random stream. -/
def rStreamZero : ℕ → ℚ := fun _ => 0

/-- A random stream whose second value is 1/2 (all others 0): the first
river start attempt lands on the hills tile of the 2×1 seed-42 map. -/
def rStreamHalf : ℕ → ℚ := fun n => if n = 1 then 1/2 else 0

/-- A 2×2 all-plains test map with no cities. -/
def plainsMap : GameMap :=
  { width := 2
    height := 2
    terrain := [(⟨0, 0⟩, .plains), (⟨1, 0⟩, .plains), (⟨0, 1⟩, .plains), (⟨1, 1⟩, .plains)]
    cities := []
    explored := []
    resources := [] }

/-- A city at `(1, 1)` of the plains map. -/
def exCity : CityData :=
  { hex := ⟨1, 1⟩, name := "Ironhaven", population := 1000, hasStation := false, growth := 1/100 }

/-- Baseline test state on the plains map. -/
def exState : GameState := createGameState plainsMap

/-- A train fixture: an express train with a 3-hex route. -/
def exTrain : Train :=
  { id := 1
    name := "Express 1"
    type := .express
    route := [⟨0, 0⟩, ⟨1, 0⟩, ⟨1, 1⟩]
    currentSegment := 0
    progress := 0
    speed := 40/100
    capacity := 80
    revenue := 0
    maintenanceCost := 150
    color := 0x2E86C1 }

/-- A station on the city hex `(1, 1)` (cityIndex 0). -/
def exCityStation : Station :=
  { hex := ⟨1, 1⟩, name := "Ironhaven", type := .station, platforms := 2, cityIndex := 0 }

/-- A free-standing halt on `(0, 0)`. -/
def exHalt : Station :=
  { hex := ⟨0, 0⟩, name := "Halt 1", type := .halt, platforms := 1, cityIndex := -1 }

/-- State with one train (`exTrain`) and a city station on its route end. -/
def exTrainState : GameState :=
  { exState with
    map := { plainsMap with cities := [exCity] }
    trains := [exTrain]
    stations := [(⟨1, 1⟩, exCityStation)]
    tracks := [(trackKey ⟨0, 0⟩ ⟨1, 0⟩, ⟨⟨0, 0⟩, ⟨1, 0⟩, true, "standard"⟩),
               (trackKey ⟨1, 0⟩ ⟨1, 1⟩, ⟨⟨1, 0⟩, ⟨1, 1⟩, true, "standard"⟩)] }

/-- A single-tile map whose only hex `(0,0)` is plains: used to build a
track from the off-map hex `(-1, 0)`. -/
def tinyMap : GameMap :=
  { width := 1
    height := 1
    terrain := [(⟨0, 0⟩, .plains)]
    cities := []
    explored := []
    resources := [] }

/-- Research fixture for the `canResearch` counterexample: plenty of points,
only the baseline tech unlocked. -/
def exResearch : ResearchState :=
  { points := 100000
    pointsPerMonth := 0
    unlocked := ["basic_locomotive"]
    currentResearch := none
    progress := 0 }

/-- `m'` agrees with `m` at every key except ones set to river. -/
def RiverOnly (m m' : JsMap HexCoord TerrainType) : Prop :=
  ∀ k, jsGet m' k = jsGet m k ∨ jsGet m' k = some TerrainType.river

/-! ## Helper lemmas -/

theorem jsGet_jsSet {K V : Type} [DecidableEq K] (m : JsMap K V) (k' k : K) (v : V) :
    jsGet (jsSet m k' v) k = if k' = k then some v else jsGet m k := by
  induction m with
  | nil => simp [jsSet, jsGet]
  | cons hd tl ih =>
    obtain ⟨k0, v0⟩ := hd
    by_cases h0 : k0 = k'
    · subst h0
      by_cases hk : k0 = k <;> simp [jsSet, jsGet, hk]
    · by_cases hk : k0 = k
      · subst hk
        have h0' : k' ≠ k0 := fun h => h0 h.symm
        simp [jsSet, jsGet, h0, h0']
      · simp [jsSet, jsGet, h0, hk, ih]

theorem jsHas_jsSet {K V : Type} [DecidableEq K] (m : JsMap K V) (k' k : K) (v : V) :
    jsHas (jsSet m k' v) k = (jsHas m k || decide (k' = k)) := by
  by_cases h : k' = k <;> simp [jsHas, jsGet_jsSet, h]

theorem jsSet_length_fresh {K V : Type} [DecidableEq K] (m : JsMap K V) (k : K) (v : V)
    (h : jsHas m k = false) : (jsSet m k v).length = m.length + 1 := by
  induction m with
  | nil => simp [jsSet]
  | cons hd tl ih =>
    obtain ⟨k0, v0⟩ := hd
    simp only [jsHas, jsGet, Option.isSome] at h
    by_cases h0 : k0 = k
    · simp [h0] at h
    · simp only [h0, if_false] at h
      simp [jsSet, h0, ih h]

/-! ## C5 — monthly settlement resets and settles in one step -/

/-- C5: after `updateEconomy`, both accumulators are zero, the last-month
snapshots hold the pre-reset values (expenses including this month's
maintenance), and funds changed by exactly income minus expenses. -/
theorem updateEconomy_settlement (st : GameState) :
    (updateEconomy st).monthlyIncome = 0 ∧
    (updateEconomy st).monthlyExpenses = 0 ∧
    (updateEconomy st).lastMonthIncome = st.monthlyIncome ∧
    (updateEconomy st).lastMonthExpenses = st.monthlyExpenses + totalMaintenance st ∧
    (updateEconomy st).funds =
      st.funds + (st.monthlyIncome - (st.monthlyExpenses + totalMaintenance st)) := by
  refine ⟨rfl, rfl, rfl, rfl, ?_⟩
  simp [updateEconomy]

/-! ## C6 — era transitions are monotone, gated, at most one per call;
settlement runs every month -/

/-- C6: `advanceTime` performs at most one era transition, only on a
month-to-year wraparound, gated by the year thresholds in order, never
reverting or skipping; and monthly settlement runs on every call (both
accumulators are zero afterwards). -/
theorem updateEconomy_month (st : GameState) : (updateEconomy st).month = st.month := rfl

theorem updateEconomy_year (st : GameState) : (updateEconomy st).year = st.year := rfl

theorem updateEconomy_era (st : GameState) : (updateEconomy st).era = st.era := rfl

theorem addNotification_month (st : GameState) (i t x : String) (ty : NotifType) :
    (addNotification st i t x ty).month = st.month := rfl

theorem addNotification_year (st : GameState) (i t x : String) (ty : NotifType) :
    (addNotification st i t x ty).year = st.year := rfl

theorem addNotification_era (st : GameState) (i t x : String) (ty : NotifType) :
    (addNotification st i t x ty).era = st.era := rfl

theorem advanceCalendar_fields (st : GameState) :
    (advanceCalendar st).month = (if 12 ≤ st.month + 1 then 0 else st.month + 1) ∧
    (advanceCalendar st).year = (if 12 ≤ st.month + 1 then st.year + 1 else st.year) ∧
    (advanceCalendar st).era =
      (if 12 ≤ st.month + 1 then
        (if st.year + 1 ≥ 1900 ∧ st.era = Era.steam then Era.diesel
         else if st.year + 1 ≥ 1950 ∧ st.era = Era.diesel then Era.electric
         else if st.year + 1 ≥ 2000 ∧ st.era = Era.electric then Era.maglev
         else st.era)
       else st.era) := by
  simp only [advanceCalendar, ge_iff_le]
  split_ifs with h12 e1 e2 e3 <;>
    simp_all [addNotification_month, addNotification_year, addNotification_era]

theorem advanceTime_spec (st : GameState) :
    ((advanceTime st).era = st.era ∨ (advanceTime st).era = nextEra st.era) ∧
    (st.month + 1 < 12 →
      (advanceTime st).month = st.month + 1 ∧ (advanceTime st).year = st.year ∧
      (advanceTime st).era = st.era) ∧
    (12 ≤ st.month + 1 →
      (advanceTime st).month = 0 ∧ (advanceTime st).year = st.year + 1 ∧
      (advanceTime st).era =
        (if st.year + 1 ≥ 1900 ∧ st.era = Era.steam then Era.diesel
         else if st.year + 1 ≥ 1950 ∧ st.era = Era.diesel then Era.electric
         else if st.year + 1 ≥ 2000 ∧ st.era = Era.electric then Era.maglev
         else st.era)) ∧
    (advanceTime st).monthlyIncome = 0 ∧ (advanceTime st).monthlyExpenses = 0 := by
  obtain ⟨hm, hy, he⟩ := advanceCalendar_fields st
  have em : (advanceTime st).month = (advanceCalendar st).month := updateEconomy_month _
  have ey : (advanceTime st).year = (advanceCalendar st).year := updateEconomy_year _
  have ee : (advanceTime st).era = (advanceCalendar st).era := updateEconomy_era _
  refine ⟨?_, ?_, ?_, rfl, rfl⟩
  · rw [ee, he]
    by_cases h12 : 12 ≤ st.month + 1
    · simp only [h12, if_true]
      split_ifs with e1 e2 e3
      · right; rw [e1.2]; rfl
      · right; rw [e2.2]; rfl
      · right; rw [e3.2]; rfl
      · left; rfl
    · simp [h12]
  · intro hlt
    have h12 : ¬ 12 ≤ st.month + 1 := by omega
    rw [em, ey, ee, hm, hy, he]
    simp [h12]
  · intro h12
    rw [em, ey, ee, hm, hy, he]
    simp [h12]

/-- Witness for C6 at a concrete wraparound state crossing 1900. -/
theorem advanceTime_spec_witness :
    (advanceTime { exState with month := 11, year := 1899 }).era = Era.diesel ∧
    (advanceTime { exState with month := 11, year := 1899 }).month = 0 ∧
    (advanceTime { exState with month := 11, year := 1899 }).monthlyIncome = 0 := by
  obtain ⟨-, -, h3, h4, -⟩ := advanceTime_spec { exState with month := 11, year := 1899 }
  have h := h3 (by norm_num)
  refine ⟨?_, h.1, h4⟩
  rw [h.2.2]
  norm_num [exState, createGameState]

/-! ## C4 — train retirement refunds 25% of the legacy cost table -/

/-- C4: `removeTrain` removes the matched train and refunds
`floor(0.25 * legacyCost)` where the legacy table covers only the five
original types; the four newer types fall back to the 5000 base, refunding
1250. -/
theorem removeTrain_spec (st : GameState) (tid : ℕ) (idx : ℕ) (train : Train)
    (hidx : st.trains.findIdx? (fun t => t.id = tid) = some idx)
    (htr : st.trains[idx]? = some train) :
    (removeTrain st tid).2 = true ∧
    (removeTrain st tid).1.trains = st.trains.eraseIdx idx ∧
    (removeTrain st tid).1.funds = st.funds + refundAmount train.type ∧
    (∀ ty, refundAmount ty = ⌊(((removeCostMap ty).getD 5000 : ℚ)) * (25/100)⌋) ∧
    removeCostMap .freight = some 5000 ∧ removeCostMap .passenger = some 8000 ∧
    removeCostMap .mixed = some 6000 ∧ removeCostMap .luxury = some 12000 ∧
    removeCostMap .mail = some 4000 ∧
    removeCostMap .express = none ∧ removeCostMap .commuter = none ∧
    removeCostMap .bullet = none ∧ removeCostMap .hyperloop = none ∧
    refundAmount .express = 1250 ∧ refundAmount .commuter = 1250 ∧
    refundAmount .bullet = 1250 ∧ refundAmount .hyperloop = 1250 := by
  have h1250 : (⌊((5000 : ℚ)) * (25/100)⌋ : ℤ) = 1250 := by
    have : ((5000 : ℚ)) * (25/100) = ((1250 : ℤ) : ℚ) := by norm_num
    rw [this, Int.floor_intCast]
  refine ⟨?_, ?_, ?_, fun ty => rfl, rfl, rfl, rfl, rfl, rfl, rfl, rfl, rfl, rfl,
    ?_, ?_, ?_, ?_⟩
  · simp [removeTrain, hidx, htr, addNotification]
  · simp [removeTrain, hidx, htr, addNotification]
  · simp [removeTrain, hidx, htr, addNotification]
  all_goals simpa [refundAmount, removeCostMap] using h1250

/-- Witness for C4: retiring the express train of `exTrainState` refunds
1250. -/
theorem removeTrain_spec_witness :
    (removeTrain exTrainState 1).2 = true ∧
    (removeTrain exTrainState 1).1.funds = exTrainState.funds + 1250 := by
  have h := removeTrain_spec exTrainState 1 0 exTrain (by rfl) (by rfl)
  refine ⟨h.1, ?_⟩
  have := h.2.2.1
  rw [this]
  have hex : refundAmount exTrain.type = 1250 := h.2.2.2.2.2.2.2.2.2.2.2.2.2.1
  rw [hex]

/-! ## C3 — `canResearch` failure characterization -/

/-- C3 (amended): `canResearch` fails exactly when the id is already
unlocked, unknown, has a missing prerequisite, or the points are short; a
missing prerequisite is reported as the first missing one **in the order of
the technology's `prerequisites` array** (not catalog order), named by its
display name; the insufficient-points reason reports the required cost
against the floored current points. -/
theorem canResearch_spec (st : ResearchState) (techId : String) :
    ((canResearch st techId).ok = false ↔
      (techId ∈ st.unlocked ∨ getTech techId = none ∨
        (∃ tech, getTech techId = some tech ∧ ∃ p ∈ tech.prerequisites, p ∉ st.unlocked) ∨
        (∃ tech, getTech techId = some tech ∧ st.points < (tech.cost : ℚ)))) ∧
    (∀ tech prereq, techId ∉ st.unlocked → getTech techId = some tech →
      tech.prerequisites.find? (fun p => ¬ p ∈ st.unlocked) = some prereq →
      (canResearch st techId).reason =
        some ("Requires: " ++ (((getTech prereq).map Technology.name).getD prereq))) ∧
    (∀ tech, techId ∉ st.unlocked → getTech techId = some tech →
      (∀ p ∈ tech.prerequisites, p ∈ st.unlocked) → st.points < (tech.cost : ℚ) →
      (canResearch st techId).reason =
        some ("Need " ++ toString tech.cost ++ " RP (have " ++ toString (⌊st.points⌋ : ℤ) ++ ")")) := by
  refine ⟨?_, ?_, ?_⟩
  · by_cases hm : techId ∈ st.unlocked
    · simp [canResearch, hm]
    · rcases hg : getTech techId with _ | tech
      · simp [canResearch, hm, hg]
      · rcases hf : tech.prerequisites.find? (fun p => ¬ p ∈ st.unlocked) with _ | prereq
        · have hall : ∀ p ∈ tech.prerequisites, p ∈ st.unlocked := by
            intro p hp
            have := List.find?_eq_none.mp hf p hp
            simpa using this
          by_cases hpts : st.points < (tech.cost : ℚ)
          · simp only [canResearch, if_neg hm, hg]
            rw [hf]
            simp [hm, hg, hpts]
          · simp only [canResearch, if_neg hm, hg]
            rw [hf]
            simp [hm, hg, hpts]
            exact hall
        · have hmem : prereq ∈ tech.prerequisites := List.mem_of_find?_eq_some hf
          have hmiss : prereq ∉ st.unlocked := by
            have := List.find?_some hf
            simpa using this
          simp only [canResearch, if_neg hm, hg]
          rw [hf]
          simp [hm, hg]
          exact Or.inl ⟨prereq, hmem, hmiss⟩
  · intro tech prereq hm hg hf
    simp only [canResearch, if_neg hm, hg]
    rw [hf]
  · intro tech hm hg hall hpts
    have hf : tech.prerequisites.find? (fun p => ¬ p ∈ st.unlocked) = none := by
      rw [List.find?_eq_none]
      intro p hp
      simpa using hall p hp
    simp only [canResearch, if_neg hm, hg]
    rw [hf]
    simp [hpts]

/-- C3 counterexample: with only the baseline tech unlocked and ample
points, `canResearch` on `luxury_carriages` reports `Diesel Engine` (the
first missing prerequisite in the technology's own list), while the first
missing prerequisite in catalog order is `Passenger Carriages`. -/
theorem canResearch_counterexample :
    (canResearch exResearch "luxury_carriages").reason = some "Requires: Diesel Engine" ∧
    catalogFirstMissingName exResearch "luxury_carriages" = some "Passenger Carriages" ∧
    (canResearch exResearch "luxury_carriages").reason ≠
      (catalogFirstMissingName exResearch "luxury_carriages").map
        (fun n => "Requires: " ++ n) := by
  refine ⟨?_, ?_, ?_⟩ <;> decide

/-- Witness for C3 (amended) at the concrete fixture. -/
theorem canResearch_spec_witness :
    (canResearch exResearch "luxury_carriages").reason = some "Requires: Diesel Engine" := by
  have h := (canResearch_spec exResearch "luxury_carriages").2.1
  have := h
    { id := "luxury_carriages", name := "Luxury Carriages", era := .diesel, cost := 2000,
      prerequisites := ["diesel_engine", "passenger_carriages"],
      effects := [.unlock_train "luxury"] }
    "diesel_engine" (by decide) (by decide) (by decide)
  simpa using this

/-! ## C8 — station connectivity rule -/

/-- C8: with no stations, `canBuildStation` never fails for lack of track
connectivity; with at least one station, a hex touching no track segment is
always rejected. -/
theorem canBuildStation_connectivity (st : GameState) (hex : HexCoord) :
    (st.stations = [] →
      (canBuildStation st hex).reason ≠ some "Must connect to track network") ∧
    (st.stations ≠ [] → (∀ t ∈ jsValues st.tracks, t.«from» ≠ hex ∧ t.«to» ≠ hex) →
      (canBuildStation st hex).ok = false) := by
  constructor
  · intro hs
    rcases hterr : jsGet st.map.terrain hex with _ | terr
    · simp [canBuildStation, hs, jsHas, jsGet, jsSize, hterr]
    · simp only [canBuildStation, hs, jsHas, jsGet, jsSize, hterr, Option.isSome]
      split_ifs <;> simp_all
  · intro hs hnotrack
    have htr : ((jsValues st.tracks).any (fun t => t.«from» = hex ∨ t.«to» = hex)) = false := by
      rw [List.any_eq_false]
      intro t ht
      have h := hnotrack t ht
      simp [h.1, h.2]
    have hpos : 0 < st.stations.length := List.length_pos.mpr hs
    rcases hterr : jsGet st.map.terrain hex with _ | terr <;>
      simp only [canBuildStation, hterr, htr, jsSize] <;>
      split_ifs <;> simp_all

/-- Witness for C8: the empty-network state never reports the connectivity
reason; a state with a station rejects a hex with no adjacent track. -/
theorem canBuildStation_connectivity_witness :
    (canBuildStation exState ⟨0, 0⟩).reason ≠ some "Must connect to track network" ∧
    (canBuildStation exTrainState ⟨0, 1⟩).ok = false := by
  constructor
  · exact (canBuildStation_connectivity exState ⟨0, 0⟩).1 rfl
  · exact (canBuildStation_connectivity exTrainState ⟨0, 1⟩).2 (by decide) (by decide)

/-! ## C7 — track building scenario -/

theorem hexDistance_comm (a b : HexCoord) : hexDistance a b = hexDistance b a := by
  unfold hexDistance
  omega

theorem trackKey_comm (a b : HexCoord) : trackKey a b = trackKey b a := by
  unfold trackKey
  by_cases h1 : a.q < b.q ∨ (a.q = b.q ∧ a.r ≤ b.r) <;>
    by_cases h2 : b.q < a.q ∨ (b.q = a.q ∧ b.r ≤ a.r) <;>
    simp only [h1, h2, if_true, if_false]
  · obtain ⟨hq, hr⟩ : a.q = b.q ∧ a.r = b.r := by omega
    cases a; cases b
    simp_all
  · exfalso
    omega

theorem buildTrack_fail (st : GameState) (a b : HexCoord)
    (h : (canBuildTrack st a b).ok = false) : buildTrack st a b = (st, false) := by
  simp [buildTrack, h]

theorem revealAround_tracks (st : GameState) (c : HexCoord) (r : ℕ) :
    (revealAround st c r).tracks = st.tracks := rfl

theorem revealAround_funds (st : GameState) (c : HexCoord) (r : ℕ) :
    (revealAround st c r).funds = st.funds := rfl

theorem revealAround_terrain (st : GameState) (c : HexCoord) (r : ℕ) :
    (revealAround st c r).map.terrain = st.map.terrain := rfl

/-- C7 (amended): with funds 50000, building a standard track onto a Plains
destination costs 500 and leaves funds at 49500; repeating the same call
fails with "Track already exists" without touching the state; the reversed
orientation also fails with "Track already exists" **provided the original
source hex exists on the map and is not water** (otherwise its terrain check
fails first); and a Water destination always fails regardless of funds. -/
theorem buildTrack_scenario (st : GameState) (a b : HexCoord)
    (hfunds : st.funds = 50000)
    (hterr : jsGet st.map.terrain b = some .plains)
    (hdist : hexDistance a b = 1)
    (hnew : jsHas st.tracks (trackKey a b) = false) :
    (canBuildTrack st a b).ok = true ∧
    (canBuildTrack st a b).cost = 500 ∧
    (buildTrack st a b).2 = true ∧
    (buildTrack st a b).1.funds = 49500 ∧
    jsGet (buildTrack st a b).1.tracks (trackKey a b) = some ⟨a, b, true, "standard"⟩ ∧
    (canBuildTrack (buildTrack st a b).1 a b).ok = false ∧
    (canBuildTrack (buildTrack st a b).1 a b).reason = some "Track already exists" ∧
    buildTrack (buildTrack st a b).1 a b = ((buildTrack st a b).1, false) ∧
    (∀ tf, jsGet st.map.terrain a = some tf → tf ≠ .water →
      (canBuildTrack (buildTrack st a b).1 b a).reason = some "Track already exists" ∧
      buildTrack (buildTrack st a b).1 b a = ((buildTrack st a b).1, false)) ∧
    (∀ st2 : GameState, ∀ c d : HexCoord, jsGet st2.map.terrain d = some .water →
      (canBuildTrack st2 c d).ok = false) := by
  have hcost : (⌊(COSTS_trackPerHex : ℚ) * trackCostMultiplier .plains⌋ : ℤ) = 500 := by
    have h : (COSTS_trackPerHex : ℚ) * trackCostMultiplier .plains = ((500 : ℤ) : ℚ) := by
      norm_num [COSTS_trackPerHex, trackCostMultiplier]
    rw [h, Int.floor_intCast]
  have hc : canBuildTrack st a b = { ok := true, cost := 500, reason := none } := by
    simp [canBuildTrack, hdist, hterr, hnew, hfunds, hcost]
  have hbuild : buildTrack st a b =
      (revealAround { st with
        tracks := jsSet st.tracks (trackKey a b) ⟨a, b, true, "standard"⟩,
        funds := st.funds - 500 } b 2, true) := by
    simp [buildTrack, hc]
  have hfunds1 : (buildTrack st a b).1.funds = 49500 := by
    rw [hbuild]
    simp [revealAround_funds, hfunds]
  have htracks1 : (buildTrack st a b).1.tracks =
      jsSet st.tracks (trackKey a b) ⟨a, b, true, "standard"⟩ := by
    rw [hbuild]
    exact revealAround_tracks _ _ _
  have hterr1 : (buildTrack st a b).1.map.terrain = st.map.terrain := by
    rw [hbuild]
    exact revealAround_terrain _ _ _
  have hhas1 : jsHas (buildTrack st a b).1.tracks (trackKey a b) = true := by
    rw [htracks1, jsHas_jsSet]
    simp
  have hc2 : canBuildTrack (buildTrack st a b).1 a b =
      { ok := false, cost := 0, reason := some "Track already exists" } := by
    simp [canBuildTrack, hdist, hterr1, hterr, hhas1]
  have hwater : ∀ st2 : GameState, ∀ c d : HexCoord,
      jsGet st2.map.terrain d = some .water → (canBuildTrack st2 c d).ok = false := by
    intro st2 c d hw
    by_cases hd : hexDistance c d = 1
    · simp [canBuildTrack, hd, hw]
    · simp [canBuildTrack, hd]
  refine ⟨by rw [hc], by rw [hc], by rw [hbuild], hfunds1, ?_, by rw [hc2], by rw [hc2],
    buildTrack_fail _ a b (by rw [hc2]), ?_, hwater⟩
  · rw [htracks1, jsGet_jsSet]
    simp
  · intro tf htf hne
    have hdist2 : hexDistance b a = 1 := by rw [hexDistance_comm]; exact hdist
    have hterr2 : jsGet (buildTrack st a b).1.map.terrain a = some tf := by
      rw [hterr1]; exact htf
    have hhas2 : jsHas (buildTrack st a b).1.tracks (trackKey b a) = true := by
      rw [trackKey_comm b a]; exact hhas1
    have hc3 : canBuildTrack (buildTrack st a b).1 b a =
        { ok := false, cost := 0, reason := some "Track already exists" } := by
      simp [canBuildTrack, hdist2, hterr2, hne, hhas2]
    exact ⟨by rw [hc3], buildTrack_fail _ b a (by rw [hc3])⟩

/-- C7 counterexample: the source never checks the *origin* hex, so a track
can be built from the off-map hex `(-1,0)` onto Plains; re-building the same
unordered pair in the reversed orientation then fails with "Out of bounds",
not "Track already exists". -/
theorem buildTrack_counterexample :
    (canBuildTrack (createGameState tinyMap) ⟨-1, 0⟩ ⟨0, 0⟩).ok = true ∧
    (buildTrack (createGameState tinyMap) ⟨-1, 0⟩ ⟨0, 0⟩).1.funds = 49500 ∧
    (canBuildTrack (buildTrack (createGameState tinyMap) ⟨-1, 0⟩ ⟨0, 0⟩).1
        ⟨0, 0⟩ ⟨-1, 0⟩).reason = some "Out of bounds" ∧
    (canBuildTrack (buildTrack (createGameState tinyMap) ⟨-1, 0⟩ ⟨0, 0⟩).1
        ⟨0, 0⟩ ⟨-1, 0⟩).reason ≠ some "Track already exists" := by
  have h3 : (canBuildTrack (buildTrack (createGameState tinyMap) ⟨-1, 0⟩ ⟨0, 0⟩).1
      ⟨0, 0⟩ ⟨-1, 0⟩).reason = some "Out of bounds" := by with_unfolding_all rfl
  refine ⟨by with_unfolding_all rfl, by with_unfolding_all rfl, h3, ?_⟩
  rw [h3]
  decide

/-- Witness for C7 (amended) on the 2×2 plains map. -/
theorem buildTrack_scenario_witness :
    (canBuildTrack exState ⟨1, 0⟩ ⟨0, 0⟩).cost = 500 ∧
    (buildTrack exState ⟨1, 0⟩ ⟨0, 0⟩).1.funds = 49500 := by
  have h := buildTrack_scenario exState ⟨1, 0⟩ ⟨0, 0⟩ rfl (by decide) (by decide) (by decide)
  exact ⟨h.2.1, h.2.2.2.1⟩

/-! ## Train movement lemmas (shared by the revenue and invariant claims) -/

theorem deliveryDraw_cases (stations : JsMap HexCoord Station) (rand : ℕ → ℚ)
    (hex : HexCoord) (i : ℕ) (hrand : ∀ n, 0 ≤ rand n ∧ rand n < 1) :
    (deliveryDraw stations rand hex i).1 = 0 ∨
      (50 ≤ (deliveryDraw stations rand hex i).1 ∧
       (deliveryDraw stations rand hex i).1 ≤ 249) := by
  unfold deliveryDraw
  rcases jsGet stations hex with _ | station
  · exact Or.inl rfl
  · by_cases hc : 0 ≤ station.cityIndex
    · right
      simp only [hc, if_true]
      have h0 : (0 : ℚ) ≤ rand i * 200 := by
        have := (hrand i).1
        positivity
      have h1 : rand i * 200 < 200 := by
        have := (hrand i).2
        nlinarith
      constructor
      · have : (0 : ℤ) ≤ ⌊rand i * 200⌋ := Int.floor_nonneg.mpr h0
        omega
      · have : ⌊rand i * 200⌋ < (200 : ℤ) := by
          rw [Int.floor_lt]
          exact_mod_cast h1
        omega
    · exact Or.inl (by simp [hc])

theorem stepTrain_route_length (research : ResearchState) (stations : JsMap HexCoord Station)
    (g : ℚ) (rand : ℕ → ℚ) (t : Train) (i : ℕ) :
    (stepTrain research stations g rand t i).train.route.length = t.route.length := by
  unfold stepTrain stepCross
  split_ifs <;> try simp
  all_goals split_ifs <;> simp

theorem stepTrain_type (research : ResearchState) (stations : JsMap HexCoord Station)
    (g : ℚ) (rand : ℕ → ℚ) (t : Train) (i : ℕ) :
    (stepTrain research stations g rand t i).train.type = t.type := by
  unfold stepTrain stepCross
  split_ifs <;> try simp
  all_goals split_ifs <;> simp

theorem stepTrain_revenue (research : ResearchState) (stations : JsMap HexCoord Station)
    (g : ℚ) (rand : ℕ → ℚ) (t : Train) (i : ℕ) :
    (stepTrain research stations g rand t i).train.revenue =
      t.revenue + (stepTrain research stations g rand t i).legRev
        + (stepTrain research stations g rand t i).deliveryRev := by
  unfold stepTrain stepCross
  split_ifs <;> try simp
  all_goals split_ifs <;> simp

theorem stepTrain_legRev_cases (research : ResearchState) (stations : JsMap HexCoord Station)
    (g : ℚ) (rand : ℕ → ℚ) (t : Train) (i : ℕ) :
    (stepTrain research stations g rand t i).legRev = 0 ∨
      (stepTrain research stations g rand t i).legRev =
        legRevenue research t.type t.route.length := by
  unfold stepTrain stepCross
  split_ifs <;> try simp
  all_goals split_ifs <;> simp

theorem stepTrain_deliveryRev_cases (research : ResearchState)
    (stations : JsMap HexCoord Station) (g : ℚ) (rand : ℕ → ℚ) (t : Train) (i : ℕ)
    (hrand : ∀ n, 0 ≤ rand n ∧ rand n < 1) :
    (stepTrain research stations g rand t i).deliveryRev = 0 ∨
      (50 ≤ (stepTrain research stations g rand t i).deliveryRev ∧
       (stepTrain research stations g rand t i).deliveryRev ≤ 249) := by
  unfold stepTrain stepCross
  split_ifs <;> try simp [deliveryDraw_cases _ rand _ _ hrand]
  all_goals split_ifs <;> simp [deliveryDraw_cases _ rand _ _ hrand]

theorem updateTrainsGo_sum (research : ResearchState) (stations : JsMap HexCoord Station)
    (g : ℚ) (rand : ℕ → ℚ) : ∀ (ts : List Train) (i : ℕ),
    ((updateTrainsGo research stations g rand ts i).1.map (fun t => t.revenue)).sum
      = (ts.map (fun t => t.revenue)).sum
        + (updateTrainsGo research stations g rand ts i).2.1 := by
  intro ts
  induction ts with
  | nil => intro i; simp [updateTrainsGo]
  | cons t ts ih =>
    intro i
    rcases hgo : updateTrainsGo research stations g rand ts
        (stepTrain research stations g rand t i).next with ⟨ts', inc, i2⟩
    have hr := stepTrain_revenue research stations g rand t i
    have := ih (stepTrain research stations g rand t i).next
    rw [hgo] at this
    simp only [updateTrainsGo, hgo, List.map_cons, List.sum_cons]
    rw [hr]
    simp only at this
    rw [this]
    ring

/-! ## C2 — leg-completion revenue -/

/-- C2: a train whose crossing reaches the last edge has its route reversed
and segment reset, and is credited `floor(routeLength * 100 * typeMultiplier
* (1 + revenueBonus/100))`, with the claimed per-type multipliers; the
credit goes equally to the train's revenue, the month's income and the
running total; over any number of steps, cumulative revenue is (number of
leg completions) × that constant amount plus delivery bonuses each in
[50, 249]. -/
theorem updateTrains_leg_revenue (research : ResearchState)
    (stations : JsMap HexCoord Station) (g : ℚ) (rand : ℕ → ℚ)
    (hrand : ∀ n, 0 ≤ rand n ∧ rand n < 1) :
    (∀ (t : Train) (i : ℕ), 2 ≤ t.route.length → 1 ≤ t.progress + t.speed * g →
      t.route.length - 1 ≤ t.currentSegment + 1 →
      (stepTrain research stations g rand t i).train.route = t.route.reverse ∧
      (stepTrain research stations g rand t i).train.currentSegment = 0 ∧
      (stepTrain research stations g rand t i).legRev =
        legRevenue research t.type t.route.length ∧
      (stepTrain research stations g rand t i).train.revenue =
        t.revenue + (stepTrain research stations g rand t i).legRev
          + (stepTrain research stations g rand t i).deliveryRev ∧
      ((stepTrain research stations g rand t i).deliveryRev = 0 ∨
        (50 ≤ (stepTrain research stations g rand t i).deliveryRev ∧
         (stepTrain research stations g rand t i).deliveryRev ≤ 249))) ∧
    (legMultiplier .hyperloop = 5 ∧ legMultiplier .bullet = 4 ∧ legMultiplier .luxury = 3 ∧
     legMultiplier .express = 5/2 ∧ legMultiplier .passenger = 2 ∧
     legMultiplier .commuter = 3/2 ∧ legMultiplier .freight = 1 ∧
     legMultiplier .mixed = 1 ∧ legMultiplier .mail = 1) ∧
    (∀ (ty : TrainType) (n : ℕ), legRevenue research ty n =
      ⌊(n : ℚ) * 100 * legMultiplier ty * (1 + getRevenueBonus research / 100)⌋) ∧
    (∀ (st : GameState) (delta : ℚ) (j : ℕ),
      (updateTrains st delta rand j).1.monthlyIncome = st.monthlyIncome +
        (updateTrainsGo st.research st.stations
          (speedMultipliers.getD st.speed.val 0 * delta) rand st.trains j).2.1 ∧
      (updateTrains st delta rand j).1.totalRevenue = st.totalRevenue +
        (updateTrainsGo st.research st.stations
          (speedMultipliers.getD st.speed.val 0 * delta) rand st.trains j).2.1 ∧
      (((updateTrains st delta rand j).1.trains).map (fun t => t.revenue)).sum =
        ((st.trains).map (fun t => t.revenue)).sum +
        (updateTrainsGo st.research st.stations
          (speedMultipliers.getD st.speed.val 0 * delta) rand st.trains j).2.1) ∧
    (∀ (k : ℕ) (t : Train) (i : ℕ),
      (runTrainAcc research stations g rand k t i).1.revenue =
        t.revenue + ((runTrainAcc research stations g rand k t i).2.2.1 : ℤ) *
          legRevenue research t.type t.route.length +
          ((runTrainAcc research stations g rand k t i).2.2.2).sum ∧
      (∀ d ∈ (runTrainAcc research stations g rand k t i).2.2.2, 50 ≤ d ∧ d ≤ 249)) := by
  refine ⟨?_, by simp [legMultiplier], fun ty n => rfl, ?_, ?_⟩
  · intro t i hlen hp hseg
    have hnlt : ¬ t.route.length < 2 := by omega
    unfold stepTrain
    simp only [hnlt, if_false, hp, if_true, hseg]
    unfold stepCross
    refine ⟨rfl, rfl, by simp [List.length_reverse], by simp, ?_⟩
    exact deliveryDraw_cases _ rand _ _ hrand
  · intro st delta j
    rcases hgo : updateTrainsGo st.research st.stations
        (speedMultipliers.getD st.speed.val 0 * delta) rand st.trains j with ⟨ts', inc, i2⟩
    have hsum := updateTrainsGo_sum st.research st.stations
      (speedMultipliers.getD st.speed.val 0 * delta) rand st.trains j
    rw [hgo] at hsum
    simp only [updateTrains, hgo]
    refine ⟨by simp, by simp, ?_⟩
    simpa using hsum
  · intro k
    induction k with
    | zero => intro t i; simp [runTrainAcc]
    | succ k ih =>
      intro t i
      rcases hacc : runTrainAcc research stations g rand k
          (stepTrain research stations g rand t i).train
          (stepTrain research stations g rand t i).next with ⟨t', i', legs, dlvs⟩
      have hih := ih (stepTrain research stations g rand t i).train
        (stepTrain research stations g rand t i).next
      rw [hacc] at hih
      simp only at hih
      have hlen := stepTrain_route_length research stations g rand t i
      have hty := stepTrain_type research stations g rand t i
      have hrev := stepTrain_revenue research stations g rand t i
      have hleg := stepTrain_legRev_cases research stations g rand t i
      have hdlv := stepTrain_deliveryRev_cases research stations g rand t i hrand
      simp only [runTrainAcc, hacc]
      rw [hlen, hty] at hih
      constructor
      · rcases hleg with hl0 | hlv
        · rcases hdlv with hd0 | hdb
          · simp only [hl0, hd0, if_true]
            rw [hih.1, hrev, hl0, hd0]
            push_cast
            ring
          · have hd0 : ¬ (stepTrain research stations g rand t i).deliveryRev = 0 := by omega
            simp only [hl0, hd0, if_true, if_false]
            rw [hih.1, hrev, hl0]
            simp [List.sum_cons]
            ring
        · by_cases hl0 : (stepTrain research stations g rand t i).legRev = 0
          · rcases hdlv with hd0 | hdb
            · simp only [hl0, hd0, if_true]
              rw [hih.1, hrev, hl0, hd0]
              push_cast
              ring
            · have hd0 : ¬ (stepTrain research stations g rand t i).deliveryRev = 0 := by omega
              simp only [hl0, hd0, if_true, if_false]
              rw [hih.1, hrev, hl0]
              simp [List.sum_cons]
              ring
          · rcases hdlv with hd0 | hdb
            · simp only [hl0, hd0, if_false, if_true]
              rw [hih.1, hrev, hlv, hd0]
              push_cast
              ring
            · have hd0 : ¬ (stepTrain research stations g rand t i).deliveryRev = 0 := by omega
              simp only [hl0, hd0, if_false]
              rw [hih.1, hrev, hlv]
              simp [List.sum_cons]
              ring
      · intro d hd
        by_cases hd0 : (stepTrain research stations g rand t i).deliveryRev = 0
        · simp only [hd0, if_true] at hd
          exact hih.2 d hd
        · simp only [hd0, if_false, List.mem_cons] at hd
          rcases hd with hd | hd
          · subst hd
            rcases hdlv with h | h
            · exact absurd h hd0
            · exact h
          · exact hih.2 d hd

/-- Witness for C2: the multiplier table and formula at a concrete research
state and stream. -/
theorem updateTrains_leg_revenue_witness :
    legMultiplier .hyperloop = 5 ∧ legMultiplier .commuter = 3/2 := by
  have h := updateTrains_leg_revenue createResearchState [] 1 rStreamZero
    (fun n => by norm_num [rStreamZero])
  exact ⟨h.2.1.1, h.2.1.2.2.2.2.2.1⟩

/-! ## C10 — movement preserves the progress/segment invariant -/

theorem updateTrainsGo_mem (research : ResearchState) (stations : JsMap HexCoord Station)
    (g : ℚ) (rand : ℕ → ℚ) (ts : List Train) : ∀ (i : ℕ) (t2 : Train),
    t2 ∈ (updateTrainsGo research stations g rand ts i).1 →
    ∃ t ∈ ts, ∃ j, t2 = (stepTrain research stations g rand t j).train := by
  induction ts with
  | nil => intro i t2 h; simp [updateTrainsGo] at h
  | cons t ts ih =>
    intro i t2 h
    rcases hgo : updateTrainsGo research stations g rand ts
        (stepTrain research stations g rand t i).next with ⟨ts', inc, i2⟩
    simp only [updateTrainsGo, hgo, List.mem_cons] at h
    rcases h with h | h
    · exact ⟨t, List.mem_cons_self t ts, i, h⟩
    · obtain ⟨t0, ht0, j, hj⟩ := ih (stepTrain research stations g rand t i).next t2
        (by rw [hgo]; exact h)
      exact ⟨t0, List.mem_cons_of_mem t ht0, j, hj⟩

/-- C10: one `stepTrain` preserves `progress ∈ [0,1)` and
`currentSegment ≤ route.length - 2`, advances by at most one segment, and
discards the overshoot (progress resets to exactly 0 on a crossing); the
lift to `updateTrains` holds for every train of the updated state; and
`buyTrain` establishes the invariant (progress 0, segment 0). -/
theorem updateTrains_invariant (research : ResearchState)
    (stations : JsMap HexCoord Station) (g : ℚ) (rand : ℕ → ℚ) (hg : 0 ≤ g) :
    (∀ (t : Train) (i : ℕ), 0 ≤ t.speed → 2 ≤ t.route.length → TrainInv t →
      TrainInv (stepTrain research stations g rand t i).train ∧
      (stepTrain research stations g rand t i).train.route.length = t.route.length ∧
      (((stepTrain research stations g rand t i).train.progress = t.progress + t.speed * g ∧
        (stepTrain research stations g rand t i).train.currentSegment = t.currentSegment ∧
        (stepTrain research stations g rand t i).train.route = t.route) ∨
       ((stepTrain research stations g rand t i).train.progress = 0 ∧
        (((stepTrain research stations g rand t i).train.currentSegment = t.currentSegment + 1 ∧
          (stepTrain research stations g rand t i).train.route = t.route) ∨
         ((stepTrain research stations g rand t i).train.currentSegment = 0 ∧
          (stepTrain research stations g rand t i).train.route = t.route.reverse))))) ∧
    (∀ (st : GameState) (delta : ℚ) (j : ℕ), 0 ≤ delta →
      (∀ t ∈ st.trains, 0 ≤ t.speed ∧ (2 ≤ t.route.length → TrainInv t)) →
      ∀ t2 ∈ (updateTrains st delta rand j).1.trains, 2 ≤ t2.route.length → TrainInv t2) ∧
    (∀ (st : GameState) (ty : TrainType) (rs : List HexCoord) (tr : Train),
      (buyTrain st ty rs).1 = some tr → tr.progress = 0 ∧ tr.currentSegment = 0) := by
  have step_pres : ∀ (res : ResearchState) (stns : JsMap HexCoord Station) (g2 : ℚ),
      0 ≤ g2 → ∀ (t : Train) (i : ℕ),
      0 ≤ t.speed → 2 ≤ t.route.length → TrainInv t →
      TrainInv (stepTrain res stns g2 rand t i).train ∧
      (stepTrain res stns g2 rand t i).train.route.length = t.route.length ∧
      (((stepTrain res stns g2 rand t i).train.progress = t.progress + t.speed * g2 ∧
        (stepTrain res stns g2 rand t i).train.currentSegment = t.currentSegment ∧
        (stepTrain res stns g2 rand t i).train.route = t.route) ∨
       ((stepTrain res stns g2 rand t i).train.progress = 0 ∧
        (((stepTrain res stns g2 rand t i).train.currentSegment = t.currentSegment + 1 ∧
          (stepTrain res stns g2 rand t i).train.route = t.route) ∨
         ((stepTrain res stns g2 rand t i).train.currentSegment = 0 ∧
          (stepTrain res stns g2 rand t i).train.route = t.route.reverse)))) := by
    intro res stns g2 hg2 t i hs hlen hinv
    obtain ⟨hp0, hp1, hseg⟩ := hinv
    have hnlt : ¬ t.route.length < 2 := by omega
    unfold stepTrain
    simp only [hnlt, if_false]
    by_cases hcross : 1 ≤ t.progress + t.speed * g2
    · simp only [hcross, if_true]
      by_cases hlast : t.route.length - 1 ≤ t.currentSegment + 1
      · simp only [hlast, if_true]
        unfold stepCross
        refine ⟨⟨le_refl 0, by norm_num, Nat.zero_le _⟩, by simp, ?_⟩
        exact Or.inr ⟨by trivial, Or.inr ⟨by trivial, by trivial⟩⟩
      · simp only [hlast, if_false]
        unfold stepCross
        refine ⟨⟨le_refl 0, by norm_num, ?_⟩, by simp, ?_⟩
        · simp only
          omega
        · exact Or.inr ⟨by trivial, Or.inl ⟨by trivial, by trivial⟩⟩
    · simp only [hcross, if_false]
      refine ⟨⟨?_, ?_, hseg⟩, by trivial, Or.inl ⟨by trivial, by trivial, by trivial⟩⟩
      · have := mul_nonneg hs hg2
        simp only
        linarith
      · simp only
        linarith [not_le.mp hcross]
  refine ⟨step_pres research stations g hg, ?_, ?_⟩
  · intro st delta j hdelta hinv t2 ht2 hlen2
    have hmult : 0 ≤ speedMultipliers.getD st.speed.val 0 := by
      rcases st.speed with ⟨v, hv⟩
      interval_cases v <;> norm_num [speedMultipliers]
    have hg2 : 0 ≤ speedMultipliers.getD st.speed.val 0 * delta := mul_nonneg hmult hdelta
    rcases hgo : updateTrainsGo st.research st.stations
        (speedMultipliers.getD st.speed.val 0 * delta) rand st.trains j with ⟨ts', inc, i2⟩
    have htr : (updateTrains st delta rand j).1.trains = ts' := by
      simp only [updateTrains, hgo]
    rw [htr] at ht2
    obtain ⟨t, ht, j2, rfl⟩ := updateTrainsGo_mem st.research st.stations
      (speedMultipliers.getD st.speed.val 0 * delta) rand st.trains j t2
      (by rw [hgo]; exact ht2)
    have hlen := stepTrain_route_length st.research st.stations
      (speedMultipliers.getD st.speed.val 0 * delta) rand t j2
    rw [hlen] at hlen2
    obtain ⟨hspd, hti⟩ := hinv t ht
    exact (step_pres st.research st.stations _ hg2 t j2 hspd hlen2 (hti hlen2)).1
  · intro st ty rs tr h
    unfold buyTrain at h
    split_ifs at h <;> try (exfalso; simp_all; done)
    all_goals try (exfalso; by_cases hf : st.funds < trainCost ty <;> simp [hf] at h; done)
    rcases hres : resolveRoute st rs with _ | full
    · rw [hres] at h
      exfalso
      by_cases hf : st.funds < trainCost ty <;> simp [hf] at h
    · rw [hres] at h
      by_cases hf : st.funds < trainCost ty
      · exfalso
        simp [hf] at h
      · simp only [hf, if_false] at h
        try dsimp only at h
        simp only [Option.some.injEq] at h
        subst h
        exact ⟨rfl, rfl⟩

/-- Witness for C10 at the concrete express train. -/
theorem updateTrains_invariant_witness :
    TrainInv (stepTrain createResearchState [] 1 rStreamZero exTrain 0).train := by
  have h := updateTrains_invariant createResearchState [] 1 rStreamZero (by norm_num)
  exact (h.1 exTrain 0 (by norm_num [exTrain]) (by decide)
    ⟨by norm_num [exTrain], by norm_num [exTrain], by decide⟩).1

/-! ## C1 — terrain determinism up to river placement -/

theorem riverOnly_refl (m : JsMap HexCoord TerrainType) : RiverOnly m m :=
  fun _ => Or.inl rfl

theorem riverOnly_trans {m1 m2 m3 : JsMap HexCoord TerrainType}
    (h12 : RiverOnly m1 m2) (h23 : RiverOnly m2 m3) : RiverOnly m1 m3 := by
  intro k
  rcases h23 k with h | h
  · rcases h12 k with h' | h'
    · exact Or.inl (h.trans h')
    · exact Or.inr (h.trans h')
  · exact Or.inr h

theorem riverOnly_set (m : JsMap HexCoord TerrainType) (k0 : HexCoord) :
    RiverOnly m (jsSet m k0 .river) := by
  intro k
  rw [jsGet_jsSet]
  by_cases hk : k0 = k
  · exact Or.inr (by simp [hk])
  · exact Or.inl (by simp [hk])

theorem riverWalk_riverOnly (w h : ℕ) (rand : ℕ → ℚ) : ∀ (fuel : ℕ) (q r : ℤ)
    (m : JsMap HexCoord TerrainType) (i : ℕ),
    RiverOnly m (riverWalk w h rand fuel q r m i).1 := by
  intro fuel
  induction fuel with
  | zero => intro q r m i; exact riverOnly_refl m
  | succ n ih =>
    intro q r m i
    unfold riverWalk
    by_cases hw : jsGet m ⟨q, r⟩ = some .water
    · simp only [hw, if_pos rfl]
      exact riverOnly_refl m
    · simp only [hw, if_neg hw]
      have hset := riverOnly_set m ⟨q, r⟩
      by_cases hn : (hexNeighbors ⟨q, r⟩).filter
          (fun n => 0 ≤ n.q ∧ n.q < (w : ℤ) ∧ 0 ≤ n.r ∧ n.r < (h : ℤ)) = []
      · simp only [hn, if_pos rfl]
        exact hset
      · simp only [hn, if_neg hn]
        exact riverOnly_trans hset (ih _ _ _ _)

theorem riverAttempts_riverOnly (w h : ℕ) (rand : ℕ → ℚ) : ∀ (n : ℕ)
    (m : JsMap HexCoord TerrainType) (i : ℕ),
    RiverOnly m (riverAttempts w h rand n m i).1 := by
  intro n
  induction n with
  | zero => intro m i; exact riverOnly_refl m
  | succ n ih =>
    intro m i
    unfold riverAttempts
    by_cases hacc : jsGet m ⟨⌊rand i * (w : ℚ)⌋, ⌊rand (i + 1) * (h : ℚ)⌋⟩ = some .mountains ∨
        jsGet m ⟨⌊rand i * (w : ℚ)⌋, ⌊rand (i + 1) * (h : ℚ)⌋⟩ = some .hills
    · simp only [if_pos hacc]
      rcases hwalk : riverWalk w h rand 20 ⌊rand i * (w : ℚ)⌋ ⌊rand (i + 1) * (h : ℚ)⌋ m (i + 2)
        with ⟨m', i'⟩
      have h1 : RiverOnly m m' := by
        have := riverWalk_riverOnly w h rand 20 ⌊rand i * (w : ℚ)⌋ ⌊rand (i + 1) * (h : ℚ)⌋ m (i + 2)
        rw [hwalk] at this
        exact this
      exact riverOnly_trans h1 (ih m' i')
    · simp only [if_neg hacc]
      exact ih m (i + 2)

/-- C1 (amended): for a fixed seed the elevation/moisture classification is
the same on every run; the final terrain of `generateMap` may additionally
convert tiles to River using unseeded randomness, so two runs with the same
seed can only disagree at a hex that at least one of them turned into
River. -/
theorem generateMapTerrain_determinism (w h : ℕ) (seed : ℤ) (r1 r2 : ℕ → ℚ) :
    RiverOnly (classifyTerrain w h seed) (generateMapTerrain w h seed r1) ∧
    RiverOnly (classifyTerrain w h seed) (generateMapTerrain w h seed r2) ∧
    (∀ k, jsGet (generateMapTerrain w h seed r1) k ≠ jsGet (generateMapTerrain w h seed r2) k →
      jsGet (generateMapTerrain w h seed r1) k = some TerrainType.river ∨
      jsGet (generateMapTerrain w h seed r2) k = some TerrainType.river) := by
  have h1 : RiverOnly (classifyTerrain w h seed) (generateMapTerrain w h seed r1) := by
    unfold generateMapTerrain riversPhase
    exact riverAttempts_riverOnly w h r1 _ _ _
  have h2 : RiverOnly (classifyTerrain w h seed) (generateMapTerrain w h seed r2) := by
    unfold generateMapTerrain riversPhase
    exact riverAttempts_riverOnly w h r2 _ _ _
  refine ⟨h1, h2, ?_⟩
  intro k hne
  rcases h1 k with ha | ha
  · rcases h2 k with hb | hb
    · exact absurd (ha.trans hb.symm) hne
    · exact Or.inr hb
  · exact Or.inl ha

set_option maxRecDepth 100000 in
theorem genTerrainZeroEval : generateMapTerrain 2 1 42 rStreamZero =
    [(⟨0, 0⟩, .coast), (⟨1, 0⟩, .hills)] := by
  with_unfolding_all rfl

set_option maxRecDepth 100000 in
theorem genTerrainHalfEval : generateMapTerrain 2 1 42 rStreamHalf =
    [(⟨0, 0⟩, .river), (⟨1, 0⟩, .river)] := by
  with_unfolding_all rfl

/-- C1 counterexample: on the 2×1 map with seed 42, the all-zero random
stream leaves the classified terrain (Coast, Hills) untouched, while a
stream whose first start attempt lands on the hills tile converts both
tiles to River — the final terrain mapping of `generateMap` is not a
function of the seed alone. -/
theorem generateMapTerrain_counterexample :
    generateMapTerrain 2 1 42 rStreamZero ≠ generateMapTerrain 2 1 42 rStreamHalf := by
  rw [genTerrainZeroEval, genTerrainHalfEval]
  decide

/-- Witness for C1 (amended) at the concrete disagreeing hex. -/
theorem generateMapTerrain_determinism_witness :
    jsGet (generateMapTerrain 2 1 42 rStreamZero) ⟨0, 0⟩ = some TerrainType.river ∨
    jsGet (generateMapTerrain 2 1 42 rStreamHalf) ⟨0, 0⟩ = some TerrainType.river := by
  refine (generateMapTerrain_determinism 2 1 42 rStreamZero rStreamHalf).2.2 ⟨0, 0⟩ ?_
  rw [genTerrainZeroEval, genTerrainHalfEval]
  decide

/-! ## C9 — BFS pathfinding -/

theorem jsGet_jsSet_self {K V : Type} [DecidableEq K] (m : JsMap K V) (k : K) (v : V) :
    jsGet (jsSet m k v) k = some v := by
  rw [jsGet_jsSet]
  simp

theorem jsGet_jsSet_ne {K V : Type} [DecidableEq K] {m : JsMap K V} {k' k : K} {v : V}
    (h : k' ≠ k) : jsGet (jsSet m k' v) k = jsGet m k := by
  rw [jsGet_jsSet]
  simp [h]

theorem setAdd_mem {K : Type} [DecidableEq K] (s : List K) (k a : K) :
    a ∈ setAdd s k ↔ a ∈ s ∨ a = k := by
  unfold setAdd
  split_ifs with h
  · constructor
    · exact fun ha => Or.inl ha
    · rintro (ha | rfl)
      · exact ha
      · exact h
  · simp

theorem ensureKey_getD (adj : JsMap HexCoord (List HexCoord)) (k a : HexCoord) :
    (jsGet (ensureKey adj k) a).getD [] = (jsGet adj a).getD [] := by
  unfold ensureKey
  split_ifs with h
  · rfl
  · rw [jsGet_jsSet]
    by_cases hk : k = a
    · subst hk
      have hnone : jsGet adj k = none := by
        unfold jsHas at h
        cases hget : jsGet adj k
        · rfl
        · rw [hget] at h
          simp at h
      simp [hnone]
    · simp [hk]

theorem ensureKey_has (adj : JsMap HexCoord (List HexCoord)) (k c : HexCoord) :
    jsHas (ensureKey adj k) c = (jsHas adj c || decide (k = c)) := by
  unfold ensureKey
  split_ifs with h
  · by_cases hk : k = c
    · subst hk
      simp [h]
    · simp [hk]
  · rw [jsHas_jsSet]

theorem adjE_addAdj (adj : JsMap HexCoord (List HexCoord)) (x y a b : HexCoord) :
    adjE (addAdj adj x y) a b ↔
      adjE adj a b ∨ (x = a ∧ y = b) ∨ (x = b ∧ y = a) := by
  have hE2 : ∀ c, (jsGet (ensureKey (ensureKey adj x) y) c).getD [] =
      (jsGet adj c).getD [] := by
    intro c
    rw [ensureKey_getD, ensureKey_getD]
  simp only [adjE, addAdj]
  by_cases hya : y = a
  · subst hya
    rw [jsGet_jsSet_self, Option.getD_some, setAdd_mem]
    by_cases hxy : x = y
    · subst hxy
      rw [jsGet_jsSet_self, Option.getD_some, setAdd_mem, hE2]
      constructor
      · rintro ((hb | rfl) | rfl)
        · exact Or.inl hb
        · exact Or.inr (Or.inl ⟨rfl, rfl⟩)
        · exact Or.inr (Or.inr ⟨rfl, rfl⟩)
      · rintro (hb | ⟨-, rfl⟩ | ⟨rfl, -⟩)
        · exact Or.inl (Or.inl hb)
        · exact Or.inl (Or.inr rfl)
        · exact Or.inr rfl
    · rw [jsGet_jsSet_ne hxy, hE2]
      constructor
      · rintro (hb | rfl)
        · exact Or.inl hb
        · exact Or.inr (Or.inr ⟨rfl, rfl⟩)
      · rintro (hb | ⟨rfl, rfl⟩ | ⟨h1, -⟩)
        · exact Or.inl hb
        · exact absurd rfl hxy
        · exact Or.inr h1.symm
  · rw [jsGet_jsSet_ne hya]
    by_cases hxa : x = a
    · subst hxa
      rw [jsGet_jsSet_self, Option.getD_some, setAdd_mem, hE2]
      constructor
      · rintro (hb | rfl)
        · exact Or.inl hb
        · exact Or.inr (Or.inl ⟨rfl, rfl⟩)
      · rintro (hb | ⟨-, rfl⟩ | ⟨rfl, h2⟩)
        · exact Or.inl hb
        · exact Or.inr rfl
        · exact absurd h2 hya
    · rw [jsGet_jsSet_ne hxa, hE2]
      constructor
      · exact fun hb => Or.inl hb
      · rintro (hb | ⟨rfl, rfl⟩ | ⟨rfl, rfl⟩)
        · exact hb
        · exact absurd rfl hxa
        · exact absurd rfl hya

theorem jsHas_addAdj (adj : JsMap HexCoord (List HexCoord)) (x y c : HexCoord) :
    jsHas (addAdj adj x y) c = true ↔ jsHas adj c = true ∨ x = c ∨ y = c := by
  simp only [addAdj]
  rw [jsHas_jsSet, jsHas_jsSet, ensureKey_has, ensureKey_has]
  simp only [Bool.or_eq_true, decide_eq_true_eq]
  tauto

theorem adjE_buildAdj (tracks : JsMap (HexCoord × HexCoord) TrackSegment) (a b : HexCoord) :
    adjE (buildAdj tracks) a b ↔
      ∃ kv ∈ tracks, (kv.2.«from» = a ∧ kv.2.«to» = b) ∨ (kv.2.«from» = b ∧ kv.2.«to» = a) := by
  have hgen : ∀ (l : List ((HexCoord × HexCoord) × TrackSegment))
      (acc : JsMap HexCoord (List HexCoord)),
      adjE (l.foldl (fun adj kv => addAdj adj kv.2.«from» kv.2.«to») acc) a b ↔
      (adjE acc a b ∨ ∃ kv ∈ l,
        (kv.2.«from» = a ∧ kv.2.«to» = b) ∨ (kv.2.«from» = b ∧ kv.2.«to» = a)) := by
    intro l
    induction l with
    | nil => intro acc; simp
    | cons kv l ih =>
      intro acc
      rw [List.foldl_cons, ih, adjE_addAdj]
      simp only [List.mem_cons]
      constructor
      · rintro ((h | h | h) | ⟨kv2, h2, h3⟩)
        · exact Or.inl h
        · exact Or.inr ⟨kv, Or.inl rfl, Or.inl h⟩
        · exact Or.inr ⟨kv, Or.inl rfl, Or.inr h⟩
        · exact Or.inr ⟨kv2, Or.inr h2, h3⟩
      · rintro (h | ⟨kv2, (rfl | h2), h3⟩)
        · exact Or.inl (Or.inl h)
        · rcases h3 with h3 | h3
          · exact Or.inl (Or.inr (Or.inl h3))
          · exact Or.inl (Or.inr (Or.inr h3))
        · exact Or.inr ⟨kv2, h2, h3⟩
  rw [buildAdj, hgen]
  simp [adjE, jsGet]

theorem jsHas_buildAdj (tracks : JsMap (HexCoord × HexCoord) TrackSegment) (c : HexCoord) :
    jsHas (buildAdj tracks) c = true ↔
      ∃ kv ∈ tracks, kv.2.«from» = c ∨ kv.2.«to» = c := by
  have hgen : ∀ (l : List ((HexCoord × HexCoord) × TrackSegment))
      (acc : JsMap HexCoord (List HexCoord)),
      jsHas (l.foldl (fun adj kv => addAdj adj kv.2.«from» kv.2.«to») acc) c = true ↔
      (jsHas acc c = true ∨ ∃ kv ∈ l, kv.2.«from» = c ∨ kv.2.«to» = c) := by
    intro l
    induction l with
    | nil => intro acc; simp
    | cons kv l ih =>
      intro acc
      rw [List.foldl_cons, ih, jsHas_addAdj]
      simp only [List.mem_cons]
      constructor
      · rintro ((h | h | h) | ⟨kv2, h2, h3⟩)
        · exact Or.inl h
        · exact Or.inr ⟨kv, Or.inl rfl, Or.inl h⟩
        · exact Or.inr ⟨kv, Or.inl rfl, Or.inr h⟩
        · exact Or.inr ⟨kv2, Or.inr h2, h3⟩
      · rintro (h | ⟨kv2, (rfl | h2), h3⟩)
        · exact Or.inl (Or.inl h)
        · rcases h3 with h3 | h3
          · exact Or.inl (Or.inr (Or.inl h3))
          · exact Or.inl (Or.inr (Or.inr h3))
        · exact Or.inr ⟨kv2, h2, h3⟩
  rw [buildAdj, hgen]
  simp [jsHas, jsGet]

theorem adjE_iff_isSegment (tracks : JsMap (HexCoord × HexCoord) TrackSegment)
    (hbuilt : ∀ kv ∈ tracks, kv.2.built = true) (a b : HexCoord) :
    adjE (buildAdj tracks) a b ↔ IsSegment tracks a b := by
  rw [adjE_buildAdj]
  unfold IsSegment
  constructor
  · rintro ⟨kv, hm, hor⟩
    exact ⟨kv, hm, hbuilt kv hm, hor⟩
  · rintro ⟨kv, hm, _, hor⟩
    exact ⟨kv, hm, hor⟩

theorem reachN_cons {E : HexCoord → HexCoord → Prop} {n : ℕ} {x y z : HexCoord}
    (hxy : E x y) (h : ReachN E n y z) : ReachN E (n + 1) x z := by
  induction h with
  | refl w => exact ReachN.snoc (ReachN.refl x) hxy
  | snoc h e ih => exact ReachN.snoc (ih hxy) e

theorem chain_reachN {E : HexCoord → HexCoord → Prop} :
    ∀ (p : List HexCoord) (a b : HexCoord), p.head? = some a → p.getLast? = some b →
    List.Chain' E p → ReachN E (p.length - 1) a b := by
  intro p
  induction p with
  | nil => intro a b h _ _; simp at h
  | cons x rest ih =>
    intro a b hh hl hc
    simp only [List.head?_cons, Option.some.injEq] at hh
    subst hh
    cases rest with
    | nil =>
      have hl2 : x = b := by simpa using hl
      cases hl2
      exact ReachN.refl x
    | cons y rest2 =>
      rw [List.chain'_cons] at hc
      have hl2 : (y :: rest2).getLast? = some b := by
        rw [List.getLast?_cons_cons] at hl
        exact hl
      have h1 := ih y b rfl hl2 hc.2
      have h2 := reachN_cons hc.1 h1
      simpa using h2

theorem reconstructRev_correct {adj : JsMap HexCoord (List HexCoord)} {start : HexCoord}
    {cf : JsMap HexCoord (Option HexCoord)} {D : HexCoord → ℕ}
    (hroot : ∀ x, jsGet cf x = some none → x = start)
    (hD0 : D start = 0)
    (hpar : ∀ x p, jsGet cf x = some (some p) →
      jsHas cf p = true ∧ adjE adj p x ∧ D x = D p + 1) :
    ∀ (fuel : ℕ) (x : HexCoord), jsHas cf x = true → D x < fuel →
      (reconstructRev cf fuel x).head? = some x ∧
      (reconstructRev cf fuel x).getLast? = some start ∧
      (reconstructRev cf fuel x).length = D x + 1 ∧
      List.Chain' (fun u v => adjE adj v u) (reconstructRev cf fuel x) := by
  intro fuel
  induction fuel with
  | zero => intro x hx hD; omega
  | succ n ih =>
    intro x hx hD
    obtain ⟨val, hval⟩ : ∃ v, jsGet cf x = some v := by
      unfold jsHas at hx
      cases h : jsGet cf x
      · rw [h] at hx
        simp at hx
      · exact ⟨_, rfl⟩
    rcases val with _ | p
    · have hxs := hroot x hval
      subst hxs
      have hrw : reconstructRev cf (n + 1) x = [x] := by
        rw [reconstructRev, hval]
      rw [hrw]
      refine ⟨rfl, rfl, ?_, List.chain'_singleton x⟩
      simp [hD0]
    · obtain ⟨hhp, hedge, hDx⟩ := hpar x p hval
      have hDp : D p < n := by omega
      obtain ⟨ph, pl, plen, pchain⟩ := ih p hhp hDp
      have hrw : reconstructRev cf (n + 1) x = x :: reconstructRev cf n p := by
        rw [reconstructRev, hval]
      rw [hrw]
      refine ⟨rfl, ?_, ?_, ?_⟩
      · cases hrec : reconstructRev cf n p with
        | nil =>
          rw [hrec] at ph
          simp at ph
        | cons y l2 =>
          rw [hrec] at pl
          rw [List.getLast?_cons_cons]
          exact pl
      · simp only [List.length_cons, plen, hDx]
      · rw [List.chain'_cons']
        refine ⟨?_, pchain⟩
        intro z hz
        rw [ph] at hz
        simp only [Option.mem_def, Option.some.injEq] at hz
        subst hz
        exact hedge

theorem reachN_zero {E : HexCoord → HexCoord → Prop} {x z : HexCoord}
    (h : ReachN E 0 x z) : x = z := by
  cases h
  rfl

theorem reachN_succ {E : HexCoord → HexCoord → Prop} {n : ℕ} {x z : HexCoord}
    (h : ReachN E (n + 1) x z) : ∃ y, ReachN E n x y ∧ E y z := by
  cases h with
  | snoc h e => exact ⟨_, h, e⟩

theorem bfsExpand_spec (current : HexCoord) :
    ∀ (ns queue : List HexCoord) (cf : JsMap HexCoord (Option HexCoord)),
    ∃ fr : List HexCoord,
      (bfsExpand current ns queue cf).1 = queue ++ fr ∧
      fr.Nodup ∧
      (∀ x ∈ fr, x ∈ ns ∧ jsHas cf x = false) ∧
      (∀ x, jsHas (bfsExpand current ns queue cf).2 x = true ↔
        (jsHas cf x = true ∨ x ∈ fr)) ∧
      (∀ x, jsHas cf x = true →
        jsGet (bfsExpand current ns queue cf).2 x = jsGet cf x) ∧
      (∀ x ∈ fr, jsGet (bfsExpand current ns queue cf).2 x = some (some current)) ∧
      (∀ x ∈ ns, jsHas cf x = false → x ∈ fr) ∧
      (bfsExpand current ns queue cf).2.length = cf.length + fr.length := by
  intro ns
  induction ns with
  | nil =>
    intro queue cf
    refine ⟨[], by simp [bfsExpand], List.nodup_nil, by simp, by simp [bfsExpand],
      fun x _ => by simp [bfsExpand], by simp, by simp, by simp [bfsExpand]⟩
  | cons n ns ih =>
    intro queue cf
    by_cases hn : jsHas cf n = true
    · obtain ⟨fr, c1, c2, c3, c4, c5, c6, c7, c8⟩ := ih queue cf
      have he : bfsExpand current (n :: ns) queue cf = bfsExpand current ns queue cf := by
        simp [bfsExpand, hn]
      rw [he]
      refine ⟨fr, c1, c2, ?_, c4, c5, c6, ?_, c8⟩
      · intro x hx
        obtain ⟨h1, h2⟩ := c3 x hx
        exact ⟨List.mem_cons_of_mem _ h1, h2⟩
      · intro x hx hf
        rcases List.mem_cons.mp hx with rfl | hx2
        · rw [hn] at hf
          cases hf
        · exact c7 x hx2 hf
    · have hn' : jsHas cf n = false := by simpa using hn
      obtain ⟨fr, c1, c2, c3, c4, c5, c6, c7, c8⟩ :=
        ih (queue ++ [n]) (jsSet cf n (some current))
      have he : bfsExpand current (n :: ns) queue cf =
          bfsExpand current ns (queue ++ [n]) (jsSet cf n (some current)) := by
        simp [bfsExpand, hn']
      rw [he]
      have hnotfr : n ∉ fr := by
        intro hmem
        have h2 := (c3 n hmem).2
        rw [jsHas_jsSet] at h2
        simp at h2
      refine ⟨n :: fr, ?_, ?_, ?_, ?_, ?_, ?_, ?_, ?_⟩
      · rw [c1, List.append_assoc]
        rfl
      · exact List.nodup_cons.mpr ⟨hnotfr, c2⟩
      · intro x hx
        rcases List.mem_cons.mp hx with rfl | hx2
        · exact ⟨List.mem_cons_self _ _, hn'⟩
        · obtain ⟨h1, h2⟩ := c3 x hx2
          refine ⟨List.mem_cons_of_mem _ h1, ?_⟩
          rw [jsHas_jsSet] at h2
          simp only [Bool.or_eq_false_iff] at h2
          exact h2.1
      · intro x
        rw [c4 x, jsHas_jsSet]
        simp only [Bool.or_eq_true, decide_eq_true_eq, List.mem_cons]
        constructor
        · rintro ((h | rfl) | h)
          · exact Or.inl h
          · exact Or.inr (Or.inl rfl)
          · exact Or.inr (Or.inr h)
        · rintro (h | (rfl | h))
          · exact Or.inl (Or.inl h)
          · exact Or.inl (Or.inr rfl)
          · exact Or.inr h
      · intro x hx
        have hxn : n ≠ x := by
          intro h
          rw [h, hx] at hn'
          cases hn'
        have hx2 : jsHas (jsSet cf n (some current)) x = true := by
          rw [jsHas_jsSet, hx]
          simp
        rw [c5 x hx2, jsGet_jsSet_ne hxn]
      · intro x hx
        rcases List.mem_cons.mp hx with rfl | hx2
        · have hx2 : jsHas (jsSet cf x (some current)) x = true := by
            rw [jsHas_jsSet]
            simp
          rw [c5 x hx2, jsGet_jsSet_self]
        · exact c6 x hx2
      · intro x hx hf
        rcases List.mem_cons.mp hx with rfl | hx2
        · exact List.mem_cons_self _ _
        · by_cases h2 : jsHas (jsSet cf n (some current)) x = true
          · rw [jsHas_jsSet, hf] at h2
            simp only [Bool.false_or, decide_eq_true_eq] at h2
            subst h2
            exact List.mem_cons_self _ _
          · have h3 : jsHas (jsSet cf n (some current)) x = false := by simpa using h2
            exact List.mem_cons_of_mem _ (c7 x hx2 h3)
      · rw [c8, jsSet_length_fresh cf n (some current) hn']
        simp only [List.length_cons]
        omega

theorem bfsInv_step {adj : JsMap HexCoord (List HexCoord)} {start current : HexCoord}
    {rest : List HexCoord} {cf : JsMap HexCoord (Option HexCoord)}
    {D : HexCoord → ℕ} {d : ℕ}
    (inv : BfsInv adj start (current :: rest) cf D d) :
    ∃ (D' : HexCoord → ℕ) (d' : ℕ), BfsInv adj start
      (bfsExpand current ((jsGet adj current).getD []) rest cf).1
      (bfsExpand current ((jsGet adj current).getD []) rest cf).2 D' d' := by
  obtain ⟨fr, c1, c2, c3, c4, c5, c6, c7, c8⟩ :=
    bfsExpand_spec current ((jsGet adj current).getD []) rest cf
  obtain ⟨A, B, hq, hA, hB, hnorm⟩ := inv.split
  have hcur : jsHas cf current = true := inv.queue_mem current (List.mem_cons_self _ _)
  obtain ⟨A', hA'⟩ : ∃ A', A = current :: A' := by
    cases A with
    | nil =>
      rw [hnorm rfl] at hq
      simp at hq
    | cons a A' =>
      simp only [List.cons_append, List.cons.injEq] at hq
      exact ⟨A', by rw [hq.1]⟩
  subst hA'
  have hrest : rest = A' ++ B := by simpa using hq
  have hDcur : D current = d := hA current (List.mem_cons_self _ _)
  have hA'd : ∀ x ∈ A', D x = d := fun x hx => hA x (List.mem_cons_of_mem _ hx)
  set Dn : HexCoord → ℕ := fun x => if jsHas cf x = true then D x else d + 1 with hDn
  have hmono : ∀ x, jsHas cf x = true → jsHas (bfsExpand current ((jsGet adj current).getD []) rest cf).2 x = true :=
    fun x hx => (c4 x).mpr (Or.inl hx)
  have hfrE : ∀ x ∈ fr, adjE adj current x := fun x hx => (c3 x hx).1
  have hhstart : jsHas cf start = true := by
    simp [jsHas, inv.start_mem]
  have f_start : jsGet (bfsExpand current ((jsGet adj current).getD []) rest cf).2 start = some none := by
    rw [c5 start hhstart]
    exact inv.start_mem
  have f_root : ∀ x, jsGet (bfsExpand current ((jsGet adj current).getD []) rest cf).2 x = some none → x = start := by
    intro x hx
    have hhx : jsHas (bfsExpand current ((jsGet adj current).getD []) rest cf).2 x = true := by
      simp [jsHas, hx]
    rcases (c4 x).mp hhx with h | h
    · rw [c5 x h] at hx
      exact inv.root_unique x hx
    · rw [c6 x h] at hx
      simp at hx
  have f_dstart : Dn start = 0 := by
    simp only [hDn]
    rw [if_pos hhstart]
    exact inv.dstart
  have f_parent : ∀ x p, jsGet (bfsExpand current ((jsGet adj current).getD []) rest cf).2 x = some (some p) →
      jsHas (bfsExpand current ((jsGet adj current).getD []) rest cf).2 p = true ∧ adjE adj p x ∧ Dn x = Dn p + 1 := by
    intro x p hx
    have hhx : jsHas (bfsExpand current ((jsGet adj current).getD []) rest cf).2 x = true := by
      simp [jsHas, hx]
    rcases (c4 x).mp hhx with h | h
    · rw [c5 x h] at hx
      obtain ⟨h1, h2, h3⟩ := inv.parent x p hx
      refine ⟨hmono p h1, h2, ?_⟩
      simp only [hDn]
      rw [if_pos h, if_pos h1]
      exact h3
    · rw [c6 x h] at hx
      simp only [Option.some.injEq] at hx
      have hxf : ¬ jsHas cf x = true := by simp [(c3 x h).2]
      subst hx
      refine ⟨hmono current hcur, hfrE x h, ?_⟩
      simp only [hDn]
      rw [if_neg hxf, if_pos hcur, hDcur]
  have f_qmem : ∀ x ∈ (bfsExpand current ((jsGet adj current).getD []) rest cf).1,
      jsHas (bfsExpand current ((jsGet adj current).getD []) rest cf).2 x = true := by
    intro x hx
    rw [c1] at hx
    rcases List.mem_append.mp hx with h | h
    · exact hmono x (inv.queue_mem x (List.mem_cons_of_mem _ h))
    · exact (c4 x).mpr (Or.inr h)
  have f_nodup : (bfsExpand current ((jsGet adj current).getD []) rest cf).1.Nodup := by
    rw [c1]
    have h1 : rest.Nodup := (List.nodup_cons.mp inv.nodupq).2
    refine List.Nodup.append h1 c2 ?_
    intro x hx1 hx2
    have hhx := inv.queue_mem x (List.mem_cons_of_mem _ hx1)
    rw [(c3 x hx2).2] at hhx
    exact Bool.noConfusion hhx
  have f_closed : ∀ x, jsHas (bfsExpand current ((jsGet adj current).getD []) rest cf).2 x = true →
      x ∉ (bfsExpand current ((jsGet adj current).getD []) rest cf).1 →
      ∀ y, adjE adj x y → jsHas (bfsExpand current ((jsGet adj current).getD []) rest cf).2 y = true := by
    intro x hx hxq y hxy
    rcases (c4 x).mp hx with h | h
    · by_cases hxc : x = current
      · subst hxc
        by_cases hy : jsHas cf y = true
        · exact hmono y hy
        · have hy' : jsHas cf y = false := by simpa using hy
          exact (c4 y).mpr (Or.inr (c7 y hxy hy'))
      · by_cases hxr : x ∈ rest
        · exact absurd (by rw [c1]; exact List.mem_append.mpr (Or.inl hxr)) hxq
        · have hnq : x ∉ current :: rest := by
            intro hmem
            rcases List.mem_cons.mp hmem with h2 | h2
            · exact hxc h2
            · exact hxr h2
          exact hmono y (inv.expand_closed x h hnq y hxy)
    · exact absurd (by rw [c1]; exact List.mem_append.mpr (Or.inr h)) hxq
  have f_lower : ∀ x, jsHas (bfsExpand current ((jsGet adj current).getD []) rest cf).2 x = true →
      ∀ n, ReachN (adjE adj) n start x → Dn x ≤ n := by
    intro x hx n hr
    rcases (c4 x).mp hx with h | h
    · simp only [hDn]
      rw [if_pos h]
      exact inv.lower x h n hr
    · have hxf := (c3 x h).2
      simp only [hDn]
      rw [if_neg (by simp [hxf])]
      by_contra hlt
      push_neg at hlt
      exact inv.unreached x hxf n (by omega) hr
  have f_dbound : ∀ x, jsHas (bfsExpand current ((jsGet adj current).getD []) rest cf).2 x = true →
      Dn x + 1 ≤ (bfsExpand current ((jsGet adj current).getD []) rest cf).2.length := by
    intro x hx
    rw [c8]
    rcases (c4 x).mp hx with h | h
    · simp only [hDn]
      rw [if_pos h]
      have := inv.dbound x h
      omega
    · simp only [hDn]
      rw [if_neg (by simp [(c3 x h).2])]
      have h1 := inv.dbound current hcur
      have h2 : 0 < fr.length := List.length_pos.mpr (List.ne_nil_of_mem h)
      rw [hDcur] at h1
      omega
  have f_unvis : ∀ z, jsHas (bfsExpand current ((jsGet adj current).getD []) rest cf).2 z = false →
      jsHas cf z = false ∧ z ∉ fr := by
    intro z hz
    constructor
    · by_contra h
      have h' : jsHas cf z = true := by simpa using h
      have h2 := (c4 z).mpr (Or.inl h')
      rw [hz] at h2
      exact Bool.noConfusion h2
    · intro h
      have h2 := (c4 z).mpr (Or.inr h)
      rw [hz] at h2
      exact Bool.noConfusion h2
  have f_depthBfr : ∀ x ∈ B ++ fr, Dn x = d + 1 := by
    intro x hx
    rcases List.mem_append.mp hx with h | h
    · have hxr : x ∈ rest := by
        rw [hrest]
        exact List.mem_append.mpr (Or.inr h)
      have hhx : jsHas cf x = true := inv.queue_mem x (List.mem_cons_of_mem _ hxr)
      simp only [hDn]
      rw [if_pos hhx]
      exact hB x h
    · simp only [hDn]
      rw [if_neg (by simp [(c3 x h).2])]
  cases A' with
  | nil =>
    refine ⟨Dn, d + 1, f_start, f_root, f_dstart, f_parent,
      ⟨B ++ fr, [], ?_, f_depthBfr, by simp, fun _ => rfl⟩,
      f_qmem, f_nodup, f_closed, f_lower, ?_, f_dbound⟩
    · rw [c1, hrest]
      simp
    · intro z hz n hn hr
      obtain ⟨hzf, hznfr⟩ := f_unvis z hz
      rcases Nat.lt_or_ge n (d + 1) with hlt | hge
      · exact inv.unreached z hzf n (by omega) hr
      · have hn' : n = d + 1 := by omega
        subst hn'
        obtain ⟨y, hry, hyz⟩ := reachN_succ hr
        have hhy : jsHas cf y = true := by
          by_contra hy
          have hy' : jsHas cf y = false := by simpa using hy
          exact inv.unreached y hy' d (le_refl d) hry
        by_cases hyq : y ∈ current :: rest
        · rcases List.mem_cons.mp hyq with rfl | hyr
          · exact hznfr (c7 z hyz hzf)
          · have h1 : D y = d + 1 := by
              rw [hrest] at hyr
              exact hB y (by simpa using hyr)
            have h2 : D y ≤ d := inv.lower y hhy d hry
            omega
        · have h3 := inv.expand_closed y hhy hyq z hyz
          rw [hzf] at h3
          exact Bool.noConfusion h3
  | cons a0 A'' =>
    refine ⟨Dn, d, f_start, f_root, f_dstart, f_parent,
      ⟨a0 :: A'', B ++ fr, ?_, ?_, f_depthBfr, ?_⟩,
      f_qmem, f_nodup, f_closed, f_lower, ?_, f_dbound⟩
    · rw [c1, hrest, List.append_assoc]
    · intro x hx
      have hxr : x ∈ rest := by
        rw [hrest]
        exact List.mem_append.mpr (Or.inl hx)
      have hhx : jsHas cf x = true := inv.queue_mem x (List.mem_cons_of_mem _ hxr)
      simp only [hDn]
      rw [if_pos hhx]
      exact hA'd x hx
    · intro h
      simp at h
    · intro z hz n hn hr
      exact inv.unreached z (f_unvis z hz).1 n hn hr

theorem bfsInv_init (adj : JsMap HexCoord (List HexCoord)) (a : HexCoord) :
    BfsInv adj a [a] (jsSet [] a none) (fun _ => 0) 0 := by
  have hhas : ∀ x, jsHas (jsSet ([] : JsMap HexCoord (Option HexCoord)) a none) x = true → x = a := by
    intro x hx
    by_cases h : a = x
    · exact h.symm
    · simp [jsHas, jsSet, jsGet, h] at hx
  refine ⟨?_, ?_, rfl, ?_, ⟨[a], [], rfl, by simp, by simp, fun _ => rfl⟩, ?_, by simp, ?_, ?_, ?_, ?_⟩
  · simp [jsSet, jsGet]
  · intro x hx
    by_cases h : a = x
    · exact h.symm
    · simp [jsSet, jsGet, h] at hx
  · intro x p hx
    by_cases h : a = x <;> simp [jsSet, jsGet, h] at hx
  · intro x hx
    simp only [List.mem_singleton] at hx
    subst hx
    simp [jsHas, jsSet, jsGet]
  · intro x hx hxq y hxy
    exfalso
    apply hxq
    rw [hhas x hx]
    exact List.mem_singleton_self a
  · intro x hx n hr
    exact Nat.zero_le n
  · intro z hz n hn hr
    have hn0 : n = 0 := Nat.le_zero.mp hn
    subst hn0
    have hz0 := reachN_zero hr
    subst hz0
    simp [jsHas, jsSet, jsGet] at hz
  · intro x hx
    simp [jsSet]

theorem bfsLoop_sound (adj : JsMap HexCoord (List HexCoord)) (start goal : HexCoord) :
    ∀ (fuel : ℕ) (queue : List HexCoord) (cf : JsMap HexCoord (Option HexCoord))
      (D : HexCoord → ℕ) (d : ℕ), BfsInv adj start queue cf D d →
    ∀ p, bfsLoop adj goal fuel queue cf = some p →
      p.head? = some start ∧ p.getLast? = some goal ∧
      List.Chain' (adjE adj) p ∧
      ∀ n, ReachN (adjE adj) n start goal → p.length ≤ n + 1 := by
  intro fuel
  induction fuel with
  | zero =>
    intro queue cf D d _ p hp
    simp [bfsLoop] at hp
  | succ f ih =>
    intro queue cf D d inv p hp
    cases queue with
    | nil => simp [bfsLoop] at hp
    | cons current rest =>
      by_cases hg : current = goal
      · subst hg
        simp only [bfsLoop, eq_self_iff_true, if_true, Option.some.injEq] at hp
        subst hp
        have hhc : jsHas cf current = true := inv.queue_mem current (List.mem_cons_self _ _)
        have hdb := inv.dbound current hhc
        obtain ⟨rh, rl, rlen, rchain⟩ :=
          reconstructRev_correct inv.root_unique inv.dstart inv.parent cf.length current hhc
            (by omega)
        refine ⟨?_, ?_, ?_, ?_⟩
        · rw [List.head?_reverse]
          exact rl
        · rw [List.getLast?_reverse]
          exact rh
        · rw [List.chain'_reverse]
          exact rchain
        · intro n hr
          rw [List.length_reverse, rlen]
          have := inv.lower current hhc n hr
          omega
      · simp only [bfsLoop, if_neg hg] at hp
        obtain ⟨D', d', inv'⟩ := bfsInv_step inv
        exact ih _ _ D' d' inv' p hp

/-- C9: `findTrackPath(state, from, to)` returns the single-element path
`[from]` when `from = to`; returns `null` when `from` is an endpoint of no
track segment (and differs from `to`); and every non-null result is a path
from `from` to `to` whose consecutive pairs are built track segments, with
minimal edge count among all such track paths (unweighted BFS). -/
theorem findTrackPath_spec (state : GameState) (a b : HexCoord)
    (hbuilt : ∀ kv ∈ state.tracks, kv.2.built = true) :
    (a = b → findTrackPath state a b = some [a]) ∧
    (a ≠ b → (∀ kv ∈ state.tracks, kv.2.«from» ≠ a ∧ kv.2.«to» ≠ a) →
      findTrackPath state a b = none) ∧
    (∀ p, findTrackPath state a b = some p →
      IsTrackPath state.tracks p a b ∧
      ∀ q, IsTrackPath state.tracks q a b → p.length ≤ q.length) := by
  refine ⟨?_, ?_, ?_⟩
  · intro h
    simp [findTrackPath, h]
  · intro hne hnoseg
    have hnh : ¬ jsHas (buildAdj state.tracks) a = true := by
      rw [jsHas_buildAdj]
      rintro ⟨kv, hm, h | h⟩
      · exact (hnoseg kv hm).1 h
      · exact (hnoseg kv hm).2 h
    simp [findTrackPath, hne, hnh]
  · intro p hp
    simp only [findTrackPath] at hp
    by_cases heq : a = b
    · rw [if_pos heq] at hp
      simp only [Option.some.injEq] at hp
      subst hp
      subst heq
      constructor
      · exact ⟨rfl, rfl, List.chain'_singleton a⟩
      · intro q hq
        obtain ⟨hh, _, _⟩ := hq
        cases q with
        | nil => simp at hh
        | cons _ _ => simp
    · rw [if_neg heq] at hp
      by_cases hh : jsHas (buildAdj state.tracks) a = true
      · rw [if_neg (by simp [hh])] at hp
        obtain ⟨ph, pl, pchain, pmin⟩ :=
          bfsLoop_sound (buildAdj state.tracks) a b
            ((buildAdj state.tracks).length + 1) [a] (jsSet [] a none)
            (fun _ => 0) 0 (bfsInv_init _ a) p hp
        constructor
        · exact ⟨ph, pl,
            List.Chain'.imp (fun u v huv => (adjE_iff_isSegment _ hbuilt u v).mp huv) pchain⟩
        · intro q hq
          obtain ⟨qh, ql, qchain⟩ := hq
          have hqreach : ReachN (adjE (buildAdj state.tracks)) (q.length - 1) a b :=
            chain_reachN q a b qh ql
              (List.Chain'.imp (fun u v huv => (adjE_iff_isSegment _ hbuilt u v).mpr huv) qchain)
          have hle := pmin (q.length - 1) hqreach
          have hqpos : 0 < q.length := by
            cases q with
            | nil => simp at qh
            | cons _ _ => simp
          omega
      · rw [if_pos (by simp [hh])] at hp
        cases hp

/-- Witness for C9: on `exTrainState` every stored segment is built, and the
degenerate query from `(0,0)` to itself returns `[(0,0)]`. -/
theorem findTrackPath_spec_witness :
    (∀ kv ∈ exTrainState.tracks, kv.2.built = true) ∧
    findTrackPath exTrainState ⟨0, 0⟩ ⟨0, 0⟩ = some [⟨0, 0⟩] := by
  have h : ∀ kv ∈ exTrainState.tracks, kv.2.built = true := by decide
  exact ⟨h, (findTrackPath_spec exTrainState ⟨0, 0⟩ ⟨0, 0⟩ h).1 rfl⟩

end IronDominion
